import Mathlib

/-
Verification of the Jack compiler pipeline (projects/10 jack-analyzer and
projects/11 jack-compiler): a shallow embedding of the tokenizer, parser,
symbol table, code generator and the three optimization passes, followed by
theorems about the documented behaviour.

Modelling conventions:
- Rust machine integers are modelled as `Nat`/`Int`; 32-bit wrapping
  arithmetic is explicit (`wrap32`), `u16` values read out of AST fields are
  reduced `% 65536` at the site where Rust's `u16` type guarantees the range.
- Rust panics (here: `i32` division overflow) are modelled as `Except Unit`,
  with `.error ()` standing for the panic.  Release-mode Rust semantics are
  used for `+ - *` and unary negation (two's-complement wrapping); `/` on
  `i32::MIN / -1` aborts in every build profile and is modelled as the panic.
- Loops whose termination is not structural carry an explicit fuel
  parameter; entry points pass a fuel that dominates the loop's real
  iteration count.  Exhausted fuel returns the state unchanged.
- `Vec<T>` fields that participate in mutual recursion of the AST are
  specialised list types (`OpList`, `ExprList`, `StmtList`) so that all
  recursion over the AST is structural; other `Vec<T>` fields are `List T`.
- The character classification helpers (`is_whitespace`, `is_alphabetic`,
  `is_alphanumeric`) use Lean's ASCII versions; the Rust originals accept
  some further Unicode code points, which no claim depends on.
- `Span` values are carried exactly as in the source; `std::io`-specific
  error variants (never produced by `compile_source`) are omitted.
-/

deriving instance DecidableEq for Except

namespace Jack

/-! ## token.rs -/

/-- Source location span (token.rs `Span`); `stop` is the source's `end`. -/
structure Span where
  start : Nat
  stop : Nat
  line : Nat
  column : Nat
deriving DecidableEq

def Span.new (start stop line column : Nat) : Span := ⟨start, stop, line, column⟩

/-- Jack language keywords (token.rs `Keyword`). -/
inductive Keyword where
  | class_ | constructor | function | method | field | static | var
  | int | char | boolean | void | true | false | null | this
  | let_ | do_ | if_ | else_ | while_ | return_
deriving DecidableEq

/-- Keyword::parse_keyword. -/
def Keyword.parse_keyword (s : String) : Option Keyword :=
  match s with
  | "class" => some .class_
  | "constructor" => some .constructor
  | "function" => some .function
  | "method" => some .method
  | "field" => some .field
  | "static" => some .static
  | "var" => some .var
  | "int" => some .int
  | "char" => some .char
  | "boolean" => some .boolean
  | "void" => some .void
  | "true" => some .true
  | "false" => some .false
  | "null" => some .null
  | "this" => some .this
  | "let" => some .let_
  | "do" => some .do_
  | "if" => some .if_
  | "else" => some .else_
  | "while" => some .while_
  | "return" => some .return_
  | _ => none

/-- Keyword::as_str. -/
def Keyword.as_str : Keyword → String
  | .class_ => "class"
  | .constructor => "constructor"
  | .function => "function"
  | .method => "method"
  | .field => "field"
  | .static => "static"
  | .var => "var"
  | .int => "int"
  | .char => "char"
  | .boolean => "boolean"
  | .void => "void"
  | .true => "true"
  | .false => "false"
  | .null => "null"
  | .this => "this"
  | .let_ => "let"
  | .do_ => "do"
  | .if_ => "if"
  | .else_ => "else"
  | .while_ => "while"
  | .return_ => "return"

/-- Jack token (token.rs `Token`). -/
inductive Token where
  | keyword (k : Keyword)
  | symbol (c : Char)
  | integerConstant (n : Nat)
  | stringConstant (s : String)
  | identifier (s : String)
deriving DecidableEq

/-- Display impl for Token (used in parser error messages). -/
def Token.display : Token → String
  | .keyword k => "keyword '" ++ k.as_str ++ "'"
  | .symbol c => "symbol '" ++ String.singleton c ++ "'"
  | .integerConstant n => "integer " ++ Nat.repr n
  | .stringConstant s => "string \"" ++ s ++ "\""
  | .identifier s => "identifier '" ++ s ++ "'"

/-- Token plus its span (token.rs `SpannedToken`). -/
structure SpannedToken where
  token : Token
  span : Span
deriving DecidableEq

def SpannedToken.new (token : Token) (span : Span) : SpannedToken := ⟨token, span⟩

/-- List of the 19 Jack symbols (token.rs `SYMBOLS`). -/
def SYMBOLS : List Char :=
  ['{', '}', '(', ')', '[', ']', '.', ',', ';', '+', '-', '*', '/', '&', '|', '<', '>', '=', '~']

/-- Check for a Jack symbol character (token.rs `is_symbol`). -/
def is_symbol (c : Char) : Bool := SYMBOLS.contains c

/-! ## error.rs (jack-analyzer) -/

/-- Analyzer error (error.rs `JackError`).  The `Io` variant is only built by
file-system collaborators outside the embedded core and is omitted; the
`cause` chaining field is always `None` in the embedded code paths. -/
inductive JackErr where
  | lexicalErr (span : Span) (message : String)
  | synError (span : Span) (message : String) (expected : List String)
deriving DecidableEq

/-- JackError::lexical. -/
def JackErr.lexical (span : Span) (message : String) : JackErr := .lexicalErr span message

/-- JackError::syntax (plain form with no expected-token set). -/
def JackErr.mkSyn (span : Span) (message : String) : JackErr := .synError span message []

/-- JackError::syntax_expected. -/
def JackErr.mkSynExpected (span : Span) (message : String) (expected : List String) : JackErr :=
  .synError span message expected

/-- Bounded error accumulator (error.rs `ErrorAccumulator`). -/
structure ErrorAccumulator where
  errors : List JackErr
  max_errors : Nat
deriving DecidableEq

namespace ErrorAccumulator

/-- ErrorAccumulator::new (default cap 20). -/
def new : ErrorAccumulator := ⟨[], 20⟩

/-- ErrorAccumulator::push drops the error when the accumulator is full. -/
def push (a : ErrorAccumulator) (e : JackErr) : ErrorAccumulator :=
  if a.errors.length < a.max_errors then ⟨a.errors ++ [e], a.max_errors⟩ else a

/-- ErrorAccumulator::is_full. -/
def is_full (a : ErrorAccumulator) : Bool := a.errors.length ≥ a.max_errors

/-- ErrorAccumulator::has_errors. -/
def has_errors (a : ErrorAccumulator) : Bool := !a.errors.isEmpty

/-- ErrorAccumulator::into_errors. -/
def into_errors (a : ErrorAccumulator) : List JackErr := a.errors

end ErrorAccumulator

/-! ## tokenizer.rs -/

/-- Tokenizer state (tokenizer.rs `JackTokenizer`). -/
structure TokState where
  chars : List Char
  pos : Nat
  byte_offset : Nat
  line : Nat
  column : Nat
  errors : ErrorAccumulator
deriving DecidableEq

namespace Tokenizer

/-- Char::len_utf8. -/
def lenUtf8 (c : Char) : Nat :=
  if c.toNat < 0x80 then 1
  else if c.toNat < 0x800 then 2
  else if c.toNat < 0x10000 then 3
  else 4

/-- JackTokenizer::new. -/
def newState (input : String) : TokState :=
  ⟨input.data, 0, 0, 1, 1, ErrorAccumulator.new⟩

/-- JackTokenizer::is_at_end. -/
def is_at_end (s : TokState) : Bool := s.pos ≥ s.chars.length

/-- JackTokenizer::peek. -/
def peek (s : TokState) : Option Char := s.chars.get? s.pos

/-- JackTokenizer::peek_next. -/
def peek_next (s : TokState) : Option Char := s.chars.get? (s.pos + 1)

/-- JackTokenizer::advance. -/
def advance (s : TokState) : Option Char × TokState :=
  match peek s with
  | none => (none, s)
  | some c =>
    let s := { s with pos := s.pos + 1, byte_offset := s.byte_offset + lenUtf8 c }
    if c = '\n' then (some c, { s with line := s.line + 1, column := 1 })
    else (some c, { s with column := s.column + 1 })

/-- Whitespace-skipping inner loop of skip_whitespace_and_comments. -/
def skipWs : Nat → TokState → TokState
  | 0, s => s
  | fuel + 1, s =>
    match peek s with
    | some c => if c.isWhitespace then skipWs fuel (advance s).2 else s
    | none => s

/-- Single-line-comment loop of skip_whitespace_and_comments (after `//`). -/
def skipLineComment : Nat → TokState → TokState
  | 0, s => s
  | fuel + 1, s =>
    match peek s with
    | some c => if c = '\n' then s else skipLineComment fuel (advance s).2
    | none => s

/-- Block-comment loop of skip_whitespace_and_comments (after an opening
slash-star, entered with nesting depth 1). -/
def skipBlockComment : Nat → Nat → TokState → TokState
  | 0, _, s => s
  | fuel + 1, depth, s =>
    if depth > 0 && !is_at_end s then
      if peek s = some '*' && peek_next s = some '/' then
        skipBlockComment fuel (depth - 1) (advance (advance s).2).2
      else if peek s = some '/' && peek_next s = some '*' then
        skipBlockComment fuel (depth + 1) (advance (advance s).2).2
      else
        skipBlockComment fuel depth (advance s).2
    else s

/-- JackTokenizer::skip_whitespace_and_comments (outer loop). -/
def skip_whitespace_and_comments : Nat → TokState → TokState
  | 0, s => s
  | fuel + 1, s =>
    let s := skipWs (s.chars.length + 1) s
    if peek s = some '/' then
      if peek_next s = some '/' then
        skip_whitespace_and_comments fuel
          (skipLineComment (s.chars.length + 1) (advance (advance s).2).2)
      else if peek_next s = some '*' then
        skip_whitespace_and_comments fuel
          (skipBlockComment (s.chars.length + 1) 1 (advance (advance s).2).2)
      else s
    else s

/-- Digit-accumulation loop of read_integer: `u32` saturating arithmetic,
overflow flagged past 32767. -/
def readIntLoop : Nat → TokState → Nat → Bool → TokState × Nat × Bool
  | 0, s, value, overflow => (s, value, overflow)
  | fuel + 1, s, value, overflow =>
    match peek s with
    | some c =>
      if c.isDigit then
        let s := (advance s).2
        let digit := c.toNat - '0'.toNat
        let value := min (min (value * 10) 4294967295 + digit) 4294967295
        let overflow := overflow || decide (value > 32767)
        readIntLoop fuel s value overflow
      else (s, value, overflow)
    | none => (s, value, overflow)

/-- JackTokenizer::read_integer. -/
def read_integer (s : TokState) (start_pos start_line start_column : Nat) :
    SpannedToken × TokState :=
  let (s, value, overflow) := readIntLoop (s.chars.length + 1) s 0 Bool.false
  let span := Span.new start_pos s.byte_offset start_line start_column
  let s :=
    if overflow then
      { s with errors := s.errors.push (JackErr.lexical span
          ("integer constant " ++ Nat.repr value ++ " exceeds maximum value 32767")) }
    else s
  (SpannedToken.new (Token.integerConstant (min value 32767)) span, s)

/-- Character loop of read_string, returning the collected text and whether a
closing quote terminated it. -/
def readStringLoop : Nat → TokState → String → TokState × String × Bool
  | 0, s, value => (s, value, Bool.false)
  | fuel + 1, s, value =>
    match peek s with
    | some c =>
      if c = '"' then ((advance s).2, value, Bool.true)
      else if c = '\n' then (s, value, Bool.false)
      else readStringLoop fuel (advance s).2 (value.push c)
    | none => (s, value, Bool.false)

/-- JackTokenizer::read_string. -/
def read_string (s : TokState) (start_pos start_line start_column : Nat) :
    Option SpannedToken × TokState :=
  let s := (advance s).2
  let (s, value, terminated) := readStringLoop (s.chars.length + 1) s ""
  let span := Span.new start_pos s.byte_offset start_line start_column
  let s :=
    if !terminated then
      { s with errors := s.errors.push (JackErr.lexical span "unterminated string constant") }
    else s
  (some (SpannedToken.new (Token.stringConstant value) span), s)

/-- Character loop of read_identifier. -/
def readIdentLoop : Nat → TokState → String → TokState × String
  | 0, s, value => (s, value)
  | fuel + 1, s, value =>
    match peek s with
    | some c =>
      if c.isAlphanum || c = '_' then readIdentLoop fuel (advance s).2 (value.push c)
      else (s, value)
    | none => (s, value)

/-- JackTokenizer::read_identifier. -/
def read_identifier (s : TokState) (start_pos start_line start_column : Nat) :
    SpannedToken × TokState :=
  let (s, value) := readIdentLoop (s.chars.length + 1) s ""
  let span := Span.new start_pos s.byte_offset start_line start_column
  let token :=
    match Keyword.parse_keyword value with
    | some k => Token.keyword k
    | none => Token.identifier value
  (SpannedToken.new token span, s)

/-- JackTokenizer::next_token. -/
def next_token (s : TokState) : Option SpannedToken × TokState :=
  let start_pos := s.byte_offset
  let start_line := s.line
  let start_column := s.column
  match peek s with
  | none => (none, s)
  | some c =>
    if is_symbol c then
      let s := (advance s).2
      let span := Span.new start_pos s.byte_offset start_line start_column
      (some (SpannedToken.new (Token.symbol c) span), s)
    else if c.isDigit then
      let (t, s) := read_integer s start_pos start_line start_column
      (some t, s)
    else if c = '"' then
      read_string s start_pos start_line start_column
    else if c.isAlpha || c = '_' then
      let (t, s) := read_identifier s start_pos start_line start_column
      (some t, s)
    else
      let s := (advance s).2
      let span := Span.new start_pos s.byte_offset start_line start_column
      (none, { s with errors := s.errors.push (JackErr.lexical span
          ("unexpected character '" ++ String.singleton c ++ "'")) })

/-- Main loop of JackTokenizer::tokenize. -/
def tokenizeLoop : Nat → TokState → List SpannedToken → List SpannedToken × TokState
  | 0, s, tokens => (tokens, s)
  | fuel + 1, s, tokens =>
    if is_at_end s then (tokens, s)
    else
      let s := skip_whitespace_and_comments (s.chars.length + 1) s
      if is_at_end s then (tokens, s)
      else
        let (tok, s) := next_token s
        let tokens := match tok with | some t => tokens ++ [t] | none => tokens
        if s.errors.is_full then (tokens, s)
        else tokenizeLoop fuel s tokens

/-- JackTokenizer::tokenize. -/
def tokenize (input : String) : Except (List JackErr) (List SpannedToken) :=
  let s := newState input
  let (tokens, s) := tokenizeLoop (s.chars.length + 1) s []
  if s.errors.has_errors then .error s.errors.into_errors else .ok tokens

end Tokenizer

/-! ## ast.rs -/

/-- Binary operators (ast.rs `BinaryOp`). -/
inductive BinaryOp where
  | add | sub | mul | div | and | or | lt | gt | eq
deriving DecidableEq

/-- BinaryOp::from_char. -/
def BinaryOp.from_char (c : Char) : Option BinaryOp :=
  match c with
  | '+' => some .add
  | '-' => some .sub
  | '*' => some .mul
  | '/' => some .div
  | '&' => some .and
  | '|' => some .or
  | '<' => some .lt
  | '>' => some .gt
  | '=' => some .eq
  | _ => none

/-- Unary operators (ast.rs `UnaryOp`). -/
inductive UnaryOp where
  | neg | not
deriving DecidableEq

/-- UnaryOp::from_char. -/
def UnaryOp.from_char (c : Char) : Option UnaryOp :=
  match c with
  | '-' => some .neg
  | '~' => some .not
  | _ => none

/-- Keyword constants (ast.rs `KeywordConstant`). -/
inductive KeywordConstant where
  | true | false | null | this
deriving DecidableEq

/-- KeywordConstant::from_keyword. -/
def KeywordConstant.from_keyword (k : Keyword) : Option KeywordConstant :=
  match k with
  | .true => some .true
  | .false => some .false
  | .null => some .null
  | .this => some .this
  | _ => none

/-- Declared types (ast.rs `Type`; named `VarType` because `Type` is reserved
in Lean). -/
inductive VarType where
  | int | char | boolean
  | className (name : String)
deriving DecidableEq

mutual

/-- Expression terms (ast.rs `Term`).  `IntegerConstant` carries a `u16`,
modelled as a `Nat` read modulo 2^16 at every use site. -/
inductive Term where
  | integerConstant (n : Nat) (sp : Span)
  | stringConstant (s : String) (sp : Span)
  | keywordConstant (k : KeywordConstant) (sp : Span)
  | varName (name : String) (sp : Span)
  | arrayAccess (name : String) (index : Expression) (sp : Span)
  | subroutineCall (c : SubroutineCall)
  | parenthesized (e : Expression) (sp : Span)
  | unaryOp (op : UnaryOp) (t : Term) (sp : Span)
deriving DecidableEq

/-- Expressions (ast.rs `Expression`): one term plus a flat operator
sequence, no precedence. -/
inductive Expression where
  | mk (term : Term) (ops : OpList) (sp : Span)
deriving DecidableEq

/-- The `ops : Vec<(BinaryOp, Term)>` field of `Expression`, specialised so
that AST recursion stays structural. -/
inductive OpList where
  | nil
  | cons (op : BinaryOp) (t : Term) (rest : OpList)
deriving DecidableEq

/-- An argument list `Vec<Expression>`, specialised like `OpList`. -/
inductive ExprList where
  | nil
  | cons (e : Expression) (rest : ExprList)
deriving DecidableEq

/-- Subroutine calls (ast.rs `SubroutineCall`). -/
inductive SubroutineCall where
  | mk (receiver : Option String) (name : String) (arguments : ExprList) (sp : Span)
deriving DecidableEq

end

def Expression.term : Expression → Term
  | .mk t _ _ => t

def Expression.ops : Expression → OpList
  | .mk _ ops _ => ops

def SubroutineCall.receiver : SubroutineCall → Option String
  | .mk r _ _ _ => r

def SubroutineCall.name : SubroutineCall → String
  | .mk _ n _ _ => n

def SubroutineCall.arguments : SubroutineCall → ExprList
  | .mk _ _ args _ => args

/-- Vec::push on an `OpList`. -/
def OpList.push : OpList → BinaryOp → Term → OpList
  | .nil, op, t => .cons op t .nil
  | .cons op0 t0 rest, op, t => .cons op0 t0 (rest.push op t)

/-- Vec::push on an `ExprList`. -/
def ExprList.push : ExprList → Expression → ExprList
  | .nil, e => .cons e .nil
  | .cons e0 rest, e => .cons e0 (rest.push e)

/-- Vec::len on an `ExprList`. -/
def ExprList.length : ExprList → Nat
  | .nil => 0
  | .cons _ rest => rest.length + 1

mutual

/-- Statements (ast.rs `Statement` with the per-variant structs inlined as
constructor fields, in source order). -/
inductive Statement where
  | letStmt (var_name : String) (index : Option Expression) (value : Expression) (sp : Span)
  | ifStmt (condition : Expression) (then_statements : StmtList)
      (else_statements : OptStmtList) (sp : Span)
  | whileStmt (condition : Expression) (statements : StmtList) (sp : Span)
  | doStmt (call : SubroutineCall) (sp : Span)
  | returnStmt (value : Option Expression) (sp : Span)
deriving DecidableEq

/-- A statement list `Vec<Statement>`, specialised like `OpList`. -/
inductive StmtList where
  | nil
  | cons (s : Statement) (rest : StmtList)
deriving DecidableEq

/-- The `Option<Vec<Statement>>` else-branch field, specialised like
`StmtList` to keep the mutual block self-contained. -/
inductive OptStmtList where
  | none
  | some (l : StmtList)
deriving DecidableEq

end

/-- Vec::push on a `StmtList`. -/
def StmtList.push : StmtList → Statement → StmtList
  | .nil, s => .cons s .nil
  | .cons s0 rest, s => .cons s0 (rest.push s)

/-- Class variable kinds (ast.rs `ClassVarKind`). -/
inductive ClassVarKind where
  | static | field
deriving DecidableEq

/-- Subroutine kinds (ast.rs `SubroutineKind`). -/
inductive SubroutineKind where
  | constructor | function | method
deriving DecidableEq

/-- Return types (ast.rs `ReturnType`). -/
inductive ReturnType where
  | void
  | type (t : VarType)
deriving DecidableEq

/-- Class variable declarations (ast.rs `ClassVarDec`). -/
structure ClassVarDec where
  kind : ClassVarKind
  var_type : VarType
  names : List String
  sp : Span
deriving DecidableEq

/-- Subroutine parameters (ast.rs `Parameter`). -/
structure Parameter where
  var_type : VarType
  name : String
deriving DecidableEq

/-- Local variable declarations (ast.rs `VarDec`). -/
structure VarDec where
  var_type : VarType
  names : List String
  sp : Span
deriving DecidableEq

/-- Subroutine bodies (ast.rs `SubroutineBody`). -/
structure SubroutineBody where
  var_decs : List VarDec
  statements : StmtList
  sp : Span
deriving DecidableEq

/-- Subroutine declarations (ast.rs `SubroutineDec`). -/
structure SubroutineDec where
  kind : SubroutineKind
  return_type : ReturnType
  name : String
  parameters : List Parameter
  body : SubroutineBody
  sp : Span
deriving DecidableEq

/-- Classes (ast.rs `Class`). -/
structure Class where
  name : String
  class_var_decs : List ClassVarDec
  subroutine_decs : List SubroutineDec
  sp : Span
deriving DecidableEq

/-! ## parser.rs -/

/-- Maximum expression nesting depth before the parser bails out
(parser.rs `MAX_DEPTH`). -/
def MAX_DEPTH : Nat := 25

/-- Parser state (parser.rs `Parser`). -/
structure ParserState where
  tokens : List SpannedToken
  pos : Nat
  errors : ErrorAccumulator
  depth : Nat
deriving DecidableEq

namespace Parser

/-- Parser::new. -/
def newState (tokens : List SpannedToken) : ParserState :=
  ⟨tokens, 0, ErrorAccumulator.new, 0⟩

/-- Parser::is_at_end. -/
def is_at_end (p : ParserState) : Bool := p.pos ≥ p.tokens.length

/-- Parser::current. -/
def current (p : ParserState) : Option SpannedToken := p.tokens.get? p.pos

/-- Parser::current_span. -/
def current_span (p : ParserState) : Span :=
  match current p with
  | some t => t.span
  | none => Span.new 0 0 1 1

/-- Parser::peek_token. -/
def peek_token (p : ParserState) : Option Token := (current p).map SpannedToken.token

/-- Parser::peek_keyword. -/
def peek_keyword (p : ParserState) : Option Keyword :=
  match peek_token p with
  | some (.keyword k) => some k
  | _ => none

/-- Parser::peek_symbol. -/
def peek_symbol (p : ParserState) : Option Char :=
  match peek_token p with
  | some (.symbol c) => some c
  | _ => none

/-- Parser::advance. -/
def advance (p : ParserState) : Option SpannedToken × ParserState :=
  if is_at_end p then (none, p)
  else (p.tokens.get? p.pos, { p with pos := p.pos + 1 })

/-- Shared `got` description used by the expect helpers. -/
def gotDesc (p : ParserState) : String :=
  match peek_token p with
  | some t => t.display
  | none => "end of file"

/-- Parser::expect_keyword. -/
def expect_keyword (p : ParserState) (keyword : Keyword) : Option Span × ParserState :=
  if peek_keyword p = some keyword then
    let (t, p) := advance p
    (t.map SpannedToken.span, p)
  else
    let span := current_span p
    let got := gotDesc p
    (none, { p with errors := p.errors.push (JackErr.mkSynExpected span
        ("expected keyword '" ++ keyword.as_str ++ "', got " ++ got) [keyword.as_str]) })

/-- Parser::expect_symbol. -/
def expect_symbol (p : ParserState) (symbol : Char) : Option Span × ParserState :=
  if peek_symbol p = some symbol then
    let (t, p) := advance p
    (t.map SpannedToken.span, p)
  else
    let span := current_span p
    let got := gotDesc p
    (none, { p with errors := p.errors.push (JackErr.mkSynExpected span
        ("expected '" ++ String.singleton symbol ++ "', got " ++ got)
        [String.singleton symbol]) })

/-- Parser::expect_identifier. -/
def expect_identifier (p : ParserState) : Option (String × Span) × ParserState :=
  match peek_token p with
  | some (.identifier name) =>
    let (t, p) := advance p
    (match t with
     | some st => some (name, st.span)
     | none => none, p)
  | _ =>
    let span := current_span p
    let got := gotDesc p
    (none, { p with errors := p.errors.push (JackErr.mkSynExpected span
        ("expected identifier, got " ++ got) ["identifier"]) })

/-- Parser::synchronize. -/
def synchronize : Nat → ParserState → ParserState
  | 0, p => p
  | fuel + 1, p =>
    if is_at_end p then p
    else
      match peek_keyword p with
      | some .let_ | some .if_ | some .while_ | some .do_ | some .return_
      | some .static | some .field | some .constructor | some .function | some .method => p
      | _ =>
        if peek_symbol p = some '}' then p
        else if peek_symbol p = some ';' then (advance p).2
        else synchronize fuel (advance p).2

mutual

/-- Parser::parse_expression (depth guard wrapper). -/
def parse_expression : Nat → ParserState → Option Expression × ParserState
  | 0, p => (none, p)
  | fuel + 1, p =>
    let p := { p with depth := p.depth + 1 }
    if p.depth > MAX_DEPTH then
      let e := JackErr.mkSyn (current_span p) "expression nesting too deep"
      let p := { p with errors := p.errors.push e }
      (none, { p with depth := p.depth - 1 })
    else
      let (result, p) := parse_expression_inner fuel p
      (result, { p with depth := p.depth - 1 })

/-- Parser::parse_expression_inner. -/
def parse_expression_inner : Nat → ParserState → Option Expression × ParserState
  | 0, p => (none, p)
  | fuel + 1, p =>
    let start_span := current_span p
    let (t, p) := parse_term fuel p
    match t with
    | none => (none, p)
    | some term =>
      let (ops, p) := parseOpsLoop fuel p .nil
      (some (Expression.mk term ops start_span), p)

/-- While-loop of parse_expression_inner collecting `(op, term)` pairs. -/
def parseOpsLoop : Nat → ParserState → OpList → OpList × ParserState
  | 0, p, ops => (ops, p)
  | fuel + 1, p, ops =>
    match peek_symbol p with
    | some c =>
      match BinaryOp.from_char c with
      | some op =>
        let p := (advance p).2
        let (t, p) := parse_term fuel p
        let ops := match t with
          | some next_term => ops.push op next_term
          | none => ops
        parseOpsLoop fuel p ops
      | none => (ops, p)
    | none => (ops, p)

/-- Parser::parse_term (depth guard wrapper). -/
def parse_term : Nat → ParserState → Option Term × ParserState
  | 0, p => (none, p)
  | fuel + 1, p =>
    let p := { p with depth := p.depth + 1 }
    if p.depth > MAX_DEPTH then
      let e := JackErr.mkSyn (current_span p) "expression nesting too deep"
      let p := { p with errors := p.errors.push e }
      (none, { p with depth := p.depth - 1 })
    else
      let (result, p) := parse_term_inner fuel p
      (result, { p with depth := p.depth - 1 })

/-- Parser::parse_term_inner. -/
def parse_term_inner : Nat → ParserState → Option Term × ParserState
  | 0, p => (none, p)
  | fuel + 1, p =>
    let start_span := current_span p
    match peek_token p with
    | some (.integerConstant n) =>
      let p := (advance p).2
      (some (Term.integerConstant n start_span), p)
    | some (.stringConstant s) =>
      let p := (advance p).2
      (some (Term.stringConstant s start_span), p)
    | some (.keyword k) =>
      match KeywordConstant.from_keyword k with
      | some kc =>
        let p := (advance p).2
        (some (Term.keywordConstant kc start_span), p)
      | none =>
        (none, { p with errors := p.errors.push (JackErr.mkSyn start_span
            ("unexpected keyword '" ++ k.as_str ++ "'")) })
    | some (.symbol '(') =>
      let p := (advance p).2
      let (e, p) := parse_expression fuel p
      match e with
      | none => (none, p)
      | some expr =>
        let (_, p) := expect_symbol p ')'
        (some (Term.parenthesized expr start_span), p)
    | some (.symbol c) =>
      if c = '-' || c = '~' then
        let p := (advance p).2
        match UnaryOp.from_char c with
        | some op =>
          let (t, p) := parse_term fuel p
          match t with
          | none => (none, p)
          | some term => (some (Term.unaryOp op term start_span), p)
        | none => (none, p)
      else
        let got := gotDesc p
        let p := { p with errors := p.errors.push (JackErr.mkSyn start_span
            ("expected term, got " ++ got)) }
        (none, synchronize (p.tokens.length + 1) p)
    | some (.identifier name) =>
      let p := (advance p).2
      match peek_symbol p with
      | some '[' =>
        let p := (advance p).2
        let (e, p) := parse_expression fuel p
        match e with
        | none => (none, p)
        | some index =>
          let (_, p) := expect_symbol p ']'
          (some (Term.arrayAccess name index start_span), p)
      | some '(' =>
        let p := (advance p).2
        let (arguments, p) := parse_expression_list fuel p
        let (_, p) := expect_symbol p ')'
        (some (Term.subroutineCall (SubroutineCall.mk none name arguments start_span)), p)
      | some '.' =>
        let p := (advance p).2
        let (m, p) := expect_identifier p
        match m with
        | none => (none, p)
        | some (method_name, _) =>
          let (_, p) := expect_symbol p '('
          let (arguments, p) := parse_expression_list fuel p
          let (_, p) := expect_symbol p ')'
          (some (Term.subroutineCall
            (SubroutineCall.mk (some name) method_name arguments start_span)), p)
      | _ => (some (Term.varName name start_span), p)
    | none =>
      let got := gotDesc p
      let p := { p with errors := p.errors.push (JackErr.mkSyn start_span
          ("expected term, got " ++ got)) }
      (none, synchronize (p.tokens.length + 1) p)

/-- Parser::parse_expression_list. -/
def parse_expression_list : Nat → ParserState → ExprList × ParserState
  | 0, p => (.nil, p)
  | fuel + 1, p =>
    if peek_symbol p = some ')' then (.nil, p)
    else
      let (e, p) := parse_expression fuel p
      let exprs := match e with
        | some expr => ExprList.cons expr .nil
        | none => ExprList.nil
      parseExprListLoop fuel p exprs

/-- Comma-loop of parse_expression_list. -/
def parseExprListLoop : Nat → ParserState → ExprList → ExprList × ParserState
  | 0, p, exprs => (exprs, p)
  | fuel + 1, p, exprs =>
    if peek_symbol p = some ',' then
      let p := (advance p).2
      let (e, p) := parse_expression fuel p
      let exprs := match e with
        | some expr => exprs.push expr
        | none => exprs
      parseExprListLoop fuel p exprs
    else (exprs, p)

end

mutual

/-- Parser::parse_statements (its statement loop). -/
def parseStatementsLoop : Nat → ParserState → StmtList → StmtList × ParserState
  | 0, p, statements => (statements, p)
  | fuel + 1, p, statements =>
    match peek_keyword p with
    | some .let_ =>
      let (stmt, p) := parse_let_statement fuel p
      let statements := match stmt with
        | some st => statements.push st
        | none => statements
      if p.errors.is_full then (statements, p) else parseStatementsLoop fuel p statements
    | some .if_ =>
      let (stmt, p) := parse_if_statement fuel p
      let statements := match stmt with
        | some st => statements.push st
        | none => statements
      if p.errors.is_full then (statements, p) else parseStatementsLoop fuel p statements
    | some .while_ =>
      let (stmt, p) := parse_while_statement fuel p
      let statements := match stmt with
        | some st => statements.push st
        | none => statements
      if p.errors.is_full then (statements, p) else parseStatementsLoop fuel p statements
    | some .do_ =>
      let (stmt, p) := parse_do_statement fuel p
      let statements := match stmt with
        | some st => statements.push st
        | none => statements
      if p.errors.is_full then (statements, p) else parseStatementsLoop fuel p statements
    | some .return_ =>
      let (stmt, p) := parse_return_statement fuel p
      let statements := match stmt with
        | some st => statements.push st
        | none => statements
      if p.errors.is_full then (statements, p) else parseStatementsLoop fuel p statements
    | _ => (statements, p)

/-- Parser::parse_let_statement. -/
def parse_let_statement : Nat → ParserState → Option Statement × ParserState
  | 0, p => (none, p)
  | fuel + 1, p =>
    let start_span := current_span p
    let (kw, p) := expect_keyword p .let_
    match kw with
    | none => (none, p)
    | some _ =>
      let (idr, p) := expect_identifier p
      match idr with
      | none => (none, p)
      | some (var_name, _) =>
        if peek_symbol p = some '[' then
          let p := (advance p).2
          let (e, p) := parse_expression fuel p
          match e with
          | none => (none, p)
          | some idx =>
            let (_, p) := expect_symbol p ']'
            let (_, p) := expect_symbol p '='
            let (v, p) := parse_expression fuel p
            match v with
            | none => (none, p)
            | some value =>
              let (_, p) := expect_symbol p ';'
              (some (Statement.letStmt var_name (some idx) value start_span), p)
        else
          let (_, p) := expect_symbol p '='
          let (v, p) := parse_expression fuel p
          match v with
          | none => (none, p)
          | some value =>
            let (_, p) := expect_symbol p ';'
            (some (Statement.letStmt var_name none value start_span), p)

/-- Parser::parse_if_statement. -/
def parse_if_statement : Nat → ParserState → Option Statement × ParserState
  | 0, p => (none, p)
  | fuel + 1, p =>
    let start_span := current_span p
    let (kw, p) := expect_keyword p .if_
    match kw with
    | none => (none, p)
    | some _ =>
      let (_, p) := expect_symbol p '('
      let (c, p) := parse_expression fuel p
      match c with
      | none => (none, p)
      | some condition =>
        let (_, p) := expect_symbol p ')'
        let (_, p) := expect_symbol p '{'
        let (then_statements, p) := parseStatementsLoop fuel p .nil
        let (_, p) := expect_symbol p '}'
        if peek_keyword p = some .else_ then
          let p := (advance p).2
          let (_, p) := expect_symbol p '{'
          let (stmts, p) := parseStatementsLoop fuel p .nil
          let (_, p) := expect_symbol p '}'
          (some (Statement.ifStmt condition then_statements (.some stmts) start_span), p)
        else
          (some (Statement.ifStmt condition then_statements .none start_span), p)

/-- Parser::parse_while_statement. -/
def parse_while_statement : Nat → ParserState → Option Statement × ParserState
  | 0, p => (none, p)
  | fuel + 1, p =>
    let start_span := current_span p
    let (kw, p) := expect_keyword p .while_
    match kw with
    | none => (none, p)
    | some _ =>
      let (_, p) := expect_symbol p '('
      let (c, p) := parse_expression fuel p
      match c with
      | none => (none, p)
      | some condition =>
        let (_, p) := expect_symbol p ')'
        let (_, p) := expect_symbol p '{'
        let (statements, p) := parseStatementsLoop fuel p .nil
        let (_, p) := expect_symbol p '}'
        (some (Statement.whileStmt condition statements start_span), p)

/-- Parser::parse_do_statement. -/
def parse_do_statement : Nat → ParserState → Option Statement × ParserState
  | 0, p => (none, p)
  | fuel + 1, p =>
    let start_span := current_span p
    let (kw, p) := expect_keyword p .do_
    match kw with
    | none => (none, p)
    | some _ =>
      let (c, p) := parse_subroutine_call fuel p
      match c with
      | none => (none, p)
      | some call =>
        let (_, p) := expect_symbol p ';'
        (some (Statement.doStmt call start_span), p)

/-- Parser::parse_return_statement. -/
def parse_return_statement : Nat → ParserState → Option Statement × ParserState
  | 0, p => (none, p)
  | fuel + 1, p =>
    let start_span := current_span p
    let (kw, p) := expect_keyword p .return_
    match kw with
    | none => (none, p)
    | some _ =>
      if peek_symbol p ≠ some ';' then
        let (v, p) := parse_expression fuel p
        match v with
        | none => (none, p)
        | some value =>
          let (_, p) := expect_symbol p ';'
          (some (Statement.returnStmt (some value) start_span), p)
      else
        let (_, p) := expect_symbol p ';'
        (some (Statement.returnStmt none start_span), p)

/-- Parser::parse_subroutine_call. -/
def parse_subroutine_call : Nat → ParserState → Option SubroutineCall × ParserState
  | 0, p => (none, p)
  | fuel + 1, p =>
    let start_span := current_span p
    let (f, p) := expect_identifier p
    match f with
    | none => (none, p)
    | some (first_name, _) =>
      if peek_symbol p = some '.' then
        let p := (advance p).2
        let (m, p) := expect_identifier p
        match m with
        | none => (none, p)
        | some (method_name, _) =>
          let (_, p) := expect_symbol p '('
          let (arguments, p) := parse_expression_list fuel p
          let (_, p) := expect_symbol p ')'
          (some (SubroutineCall.mk (some first_name) method_name arguments start_span), p)
      else
        let (_, p) := expect_symbol p '('
        let (arguments, p) := parse_expression_list fuel p
        let (_, p) := expect_symbol p ')'
        (some (SubroutineCall.mk none first_name arguments start_span), p)

end

/-- Parser::parse_statements. -/
def parse_statements (fuel : Nat) (p : ParserState) : StmtList × ParserState :=
  parseStatementsLoop fuel p .nil

/-- Parser::parse_type. -/
def parse_type (p : ParserState) : Option VarType × ParserState :=
  match peek_token p with
  | some (.keyword .int) => (some .int, (advance p).2)
  | some (.keyword .char) => (some .char, (advance p).2)
  | some (.keyword .boolean) => (some .boolean, (advance p).2)
  | some (.identifier name) => (some (.className name), (advance p).2)
  | _ =>
    let got := gotDesc p
    (none, { p with errors := p.errors.push (JackErr.mkSyn (current_span p)
        ("expected type (int, char, boolean, or class name), got " ++ got)) })

/-- Comma-separated name loop shared verbatim by parse_class_var_dec and
parse_var_dec (`while self.peek_symbol() == Some(',') ...`). -/
def parseNamesLoop : Nat → ParserState → List String → List String × ParserState
  | 0, p, names => (names, p)
  | fuel + 1, p, names =>
    if peek_symbol p = some ',' then
      let p := (advance p).2
      let (idr, p) := expect_identifier p
      let names := match idr with
        | some (name, _) => names ++ [name]
        | none => names
      parseNamesLoop fuel p names
    else (names, p)

/-- Parser::parse_class_var_dec. -/
def parse_class_var_dec (fuel : Nat) (p : ParserState) : Option ClassVarDec × ParserState :=
  let start_span := current_span p
  let (kind, p) : Option ClassVarKind × ParserState :=
    match peek_keyword p with
    | some .static => (some .static, (advance p).2)
    | some .field => (some .field, (advance p).2)
    | _ =>
      let p := { p with errors := p.errors.push (JackErr.mkSyn (current_span p)
          "expected 'static' or 'field'") }
      (none, synchronize (p.tokens.length + 1) p)
  match kind with
  | none => (none, p)
  | some kind =>
    let (t, p) := parse_type p
    match t with
    | none => (none, p)
    | some var_type =>
      let (idr, p) := expect_identifier p
      let names := match idr with
        | some (name, _) => [name]
        | none => []
      let (names, p) := parseNamesLoop fuel p names
      let (_, p) := expect_symbol p ';'
      (some ⟨kind, var_type, names, start_span⟩, p)

/-- Parser::parse_parameter_list (first parameter). -/
def parseFirstParam (p : ParserState) : List Parameter × ParserState :=
  let (t, p) := parse_type p
  match t with
  | none => ([], p)
  | some var_type =>
    let (idr, p) := expect_identifier p
    match idr with
    | some (name, _) => ([⟨var_type, name⟩], p)
    | none => ([], p)

/-- Comma-loop of parse_parameter_list. -/
def parseParamsLoop : Nat → ParserState → List Parameter → List Parameter × ParserState
  | 0, p, params => (params, p)
  | fuel + 1, p, params =>
    if peek_symbol p = some ',' then
      let p := (advance p).2
      let (t, p) := parse_type p
      match t with
      | none => parseParamsLoop fuel p params
      | some var_type =>
        let (idr, p) := expect_identifier p
        let params := match idr with
          | some (name, _) => params ++ [(⟨var_type, name⟩ : Parameter)]
          | none => params
        parseParamsLoop fuel p params
    else (params, p)

/-- Parser::parse_parameter_list. -/
def parse_parameter_list (fuel : Nat) (p : ParserState) : List Parameter × ParserState :=
  if peek_symbol p = some ')' then ([], p)
  else
    let (params, p) := parseFirstParam p
    parseParamsLoop fuel p params

/-- Parser::parse_var_dec. -/
def parse_var_dec (fuel : Nat) (p : ParserState) : Option VarDec × ParserState :=
  let start_span := current_span p
  let (kw, p) := expect_keyword p .var
  match kw with
  | none => (none, p)
  | some _ =>
    let (t, p) := parse_type p
    match t with
    | none => (none, p)
    | some var_type =>
      let (idr, p) := expect_identifier p
      let names := match idr with
        | some (name, _) => [name]
        | none => []
      let (names, p) := parseNamesLoop fuel p names
      let (_, p) := expect_symbol p ';'
      (some ⟨var_type, names, start_span⟩, p)

/-- While-loop of parse_subroutine_body collecting var decs. -/
def parseVarDecsLoop : Nat → ParserState → List VarDec → List VarDec × ParserState
  | 0, p, var_decs => (var_decs, p)
  | fuel + 1, p, var_decs =>
    if peek_keyword p = some .var then
      let (d, p) := parse_var_dec fuel p
      let var_decs := match d with
        | some dec => var_decs ++ [dec]
        | none => var_decs
      parseVarDecsLoop fuel p var_decs
    else (var_decs, p)

/-- Parser::parse_subroutine_body. -/
def parse_subroutine_body (fuel : Nat) (p : ParserState) : SubroutineBody × ParserState :=
  let start_span := current_span p
  let (_, p) := expect_symbol p '{'
  let (var_decs, p) := parseVarDecsLoop fuel p []
  let (statements, p) := parse_statements fuel p
  let (_, p) := expect_symbol p '}'
  (⟨var_decs, statements, start_span⟩, p)

/-- Parser::parse_subroutine_dec. -/
def parse_subroutine_dec (fuel : Nat) (p : ParserState) : Option SubroutineDec × ParserState :=
  let start_span := current_span p
  let (kind, p) : Option SubroutineKind × ParserState :=
    match peek_keyword p with
    | some .constructor => (some .constructor, (advance p).2)
    | some .function => (some .function, (advance p).2)
    | some .method => (some .method, (advance p).2)
    | _ =>
      let p := { p with errors := p.errors.push (JackErr.mkSyn (current_span p)
          "expected 'constructor', 'function', or 'method'") }
      (none, synchronize (p.tokens.length + 1) p)
  match kind with
  | none => (none, p)
  | some kind =>
    let (rt, p) : Option ReturnType × ParserState :=
      if peek_keyword p = some .void then (some .void, (advance p).2)
      else
        let (t, p) := parse_type p
        match t with
        | none => (none, p)
        | some t => (some (.type t), p)
    match rt with
    | none => (none, p)
    | some return_type =>
      let (idr, p) := expect_identifier p
      let name := match idr with
        | some (n, _) => n
        | none => ""
      let (_, p) := expect_symbol p '('
      let (parameters, p) := parse_parameter_list fuel p
      let (_, p) := expect_symbol p ')'
      let (body, p) := parse_subroutine_body fuel p
      (some ⟨kind, return_type, name, parameters, body, start_span⟩, p)

/-- Class-var-dec loop of parse_class. -/
def parseClassVarDecsLoop : Nat → ParserState → List ClassVarDec →
    List ClassVarDec × ParserState
  | 0, p, decs => (decs, p)
  | fuel + 1, p, decs =>
    match peek_keyword p with
    | some .static | some .field =>
      let (d, p) := parse_class_var_dec fuel p
      let decs := match d with
        | some dec => decs ++ [dec]
        | none => decs
      parseClassVarDecsLoop fuel p decs
    | _ => (decs, p)

/-- Subroutine-dec loop of parse_class. -/
def parseSubroutineDecsLoop : Nat → ParserState → List SubroutineDec →
    List SubroutineDec × ParserState
  | 0, p, decs => (decs, p)
  | fuel + 1, p, decs =>
    match peek_keyword p with
    | some .constructor | some .function | some .method =>
      let (d, p) := parse_subroutine_dec fuel p
      let decs := match d with
        | some dec => decs ++ [dec]
        | none => decs
      parseSubroutineDecsLoop fuel p decs
    | _ => (decs, p)

/-- Parser::parse_class. -/
def parse_class (fuel : Nat) (p : ParserState) : Class × ParserState :=
  let start_span := current_span p
  let (_, p) := expect_keyword p .class_
  let (idr, p) := expect_identifier p
  let name := match idr with
    | some (n, _) => n
    | none => ""
  let (_, p) := expect_symbol p '{'
  let (class_var_decs, p) := parseClassVarDecsLoop fuel p []
  let (subroutine_decs, p) := parseSubroutineDecsLoop fuel p []
  let (_, p) := expect_symbol p '}'
  (⟨name, class_var_decs, subroutine_decs, start_span⟩, p)

/-- Fuel passed by the `parse` entry point: dominates every loop iteration
count and nesting depth reachable from a token list of the given length. -/
def parseFuel (tokens : List SpannedToken) : Nat := (tokens.length + MAX_DEPTH + 2) * 4

/-- Parser::parse. -/
def parse (tokens : List SpannedToken) : Except (List JackErr) Class :=
  let p := newState tokens
  let (class_, p) := parse_class (parseFuel tokens) p
  if p.errors.has_errors then .error p.errors.into_errors else .ok class_

end Parser

/-! ## optimizer.rs — ConstantFolder -/

/-- Two's-complement wrap of an integer into the `i32` range (the semantics
of Rust's `wrapping_add`/`wrapping_sub`/`wrapping_mul`). -/
def wrap32 (n : Int) : Int := (n + 2 ^ 31) % 2 ^ 32 - 2 ^ 31

namespace ConstantFolder

/-- ConstantFolder::apply_op.  `Div` uses Rust `i32` division: truncation
toward zero, and `i32::MIN / -1` aborts the process (modelled `.error ()`);
the `right != 0` guard means a zero divisor is merely "not folded". -/
def apply_op (left : Int) (op : BinaryOp) (right : Int) : Except Unit (Option Int) :=
  match op with
  | .add => .ok (some (wrap32 (left + right)))
  | .sub => .ok (some (wrap32 (left - right)))
  | .mul => .ok (some (wrap32 (left * right)))
  | .div =>
    if right ≠ 0 then
      if left = -2 ^ 31 ∧ right = -1 then .error ()
      else .ok (some (Int.tdiv left right))
    else .ok none
  | .and => .ok (some (Int.land left right))
  | .or => .ok (some (Int.lor left right))
  | .lt => .ok (some (if left < right then -1 else 0))
  | .gt => .ok (some (if left > right then -1 else 0))
  | .eq => .ok (some (if left = right then -1 else 0))

mutual

/-- ConstantFolder::fold_expression. -/
def fold_expression : Expression → Except Unit (Option Int)
  | .mk term ops _ => do
    match ← fold_term term with
    | none => .ok none
    | some result => foldOpsLoop result ops

/-- For-loop of fold_expression over the `(op, term)` pairs. -/
def foldOpsLoop (result : Int) : OpList → Except Unit (Option Int)
  | .nil => .ok (some result)
  | .cons op t rest => do
    match ← fold_term t with
    | none => .ok none
    | some right =>
      match ← apply_op result op right with
      | none => .ok none
      | some result => foldOpsLoop result rest

/-- ConstantFolder::fold_term.  Unary minus is Rust release-mode negation
(two's-complement wrap); `u16` constants are read `as i32`. -/
def fold_term : Term → Except Unit (Option Int)
  | .integerConstant n _ => .ok (some ((n % 65536 : Nat) : Int))
  | .unaryOp .neg inner _ => do
    match ← fold_term inner with
    | none => .ok none
    | some n => .ok (some (wrap32 (-n)))
  | .unaryOp .not inner _ => do
    match ← fold_term inner with
    | none => .ok none
    | some n => .ok (some (Int.lnot n))
  | .parenthesized inner _ => fold_expression inner
  | .keywordConstant kw _ =>
    match kw with
    | .true => .ok (some (-1))
    | .false | .null => .ok (some 0)
    | .this => .ok none
  | _ => .ok none

end

/-- ConstantFolder::in_range. -/
def in_range (value : Int) : Bool := 0 ≤ value && value ≤ 32767

end ConstantFolder

/-! ## optimizer.rs — PeepholeOptimizer -/

namespace Peephole

/-- Strip `pat` from the front of `cs`, returning the rest on success
(Rust `str::strip_prefix`). -/
def stripFront : List Char → List Char → Option (List Char)
  | [], cs => some cs
  | _ :: _, [] => none
  | p :: ps, c :: cs => if c = p then stripFront ps cs else none

/-- Rust `str::starts_with`. -/
def startsWithChars (pat cs : List Char) : Bool := (stripFront pat cs).isSome

/-- Rust `str::lines`, part 1: split at every `'\n'`. -/
def splitNl : List Char → List (List Char)
  | [] => [[]]
  | c :: cs =>
    if c = '\n' then [] :: splitNl cs
    else
      match splitNl cs with
      | [] => [[c]]
      | l :: ls => (c :: l) :: ls

/-- Rust `str::lines`, part 2: a trailing line terminator yields no final
empty line. -/
def dropFinalEmpty (parts : List (List Char)) : List (List Char) :=
  match parts.getLast? with
  | some [] => parts.dropLast
  | _ => parts

/-- Rust `str::lines`, part 3: strip one trailing `'\r'` from each line. -/
def stripTrailingCR (l : List Char) : List Char :=
  match l.getLast? with
  | some '\r' => l.dropLast
  | _ => l

/-- Rust `str::lines` collected into a `Vec` (`vm_code.lines().collect()`). -/
def rustLines (s : String) : List String :=
  ((dropFinalEmpty (splitNl s.data)).map stripTrailingCR).map String.mk

/-- PeepholeOptimizer::is_redundant_push_pop. -/
def is_redundant_push_pop (line1 line2 : String) : Bool :=
  match stripFront "push ".data line1.data, stripFront "pop ".data line2.data with
  | some push_rest, some pop_rest =>
    push_rest = pop_rest && !(startsWithChars "constant".data push_rest)
  | _, _ => false

/-- Scanning loop of PeepholeOptimizer::optimize, expressed on the cursor's
remaining lines: each Rust iteration either drops a matched pair (`i += 2`),
re-emits the recognised `push constant 0`/`not` pair (`i += 2`), or copies
one line (`i += 1`). -/
def peepScan : List String → List String
  | [] => []
  | [a] => [a]
  | a :: b :: rest =>
    if is_redundant_push_pop a b then peepScan rest
    else if a = "push constant 0" && b = "add" then peepScan rest
    else if a = "not" && b = "not" then peepScan rest
    else if a = "neg" && b = "neg" then peepScan rest
    else if a = "push constant 0" && b = "not" then
      "push constant 0" :: "not" :: peepScan rest
    else a :: peepScan (b :: rest)

/-- Rust `Vec::join("\n")`. -/
def joinNl : List String → String
  | [] => ""
  | [l] => l
  | l :: rest => l ++ "\n" ++ joinNl rest

/-- PeepholeOptimizer::optimize. -/
def optimize (vm_code : String) : String :=
  let optimized := peepScan (rustLines vm_code)
  if optimized.isEmpty then "" else joinNl optimized ++ "\n"

end Peephole

/-! ## optimizer.rs — StrengthReduction -/

namespace StrengthReduction

/-- StrengthReduction::is_power_of_two on a `u16` argument. -/
def is_power_of_two (n : Nat) : Bool :=
  let n := n % 65536
  n > 0 && n.land (n - 1) = 0

/-- Bit-scanning loop behind `u16::trailing_zeros` (16 iterations, so the
all-zero word reports 16). -/
def tzLoop : Nat → Nat → Nat
  | 0, _ => 0
  | fuel + 1, n => if n % 2 = 1 then 0 else tzLoop fuel (n / 2) + 1

/-- Rust `u16::trailing_zeros`. -/
def trailing_zeros_u16 (n : Nat) : Nat := tzLoop 16 (n % 65536)

/-- StrengthReduction::shift_count. -/
def shift_count (n : Nat) : Option Nat :=
  if is_power_of_two n then some (trailing_zeros_u16 n) else none

/-- StrengthReduction::optimize_multiply. -/
def optimize_multiply (n : Nat) : Option Nat :=
  if n % 65536 ≤ 16384 && is_power_of_two n then shift_count n else none

end StrengthReduction

/-! ## error.rs (jack-compiler) -/

/-- Compiler error (error.rs `CompileError`); the file-system `Io` variant
lives outside the embedded core and is omitted. -/
inductive CompileErr where
  | undefinedVariable (name : String) (span : Span)
  | duplicateDefinition (name : String) (span : Span)
  | parse (e : JackErr)
deriving DecidableEq

/-- CompileError::undefined_variable. -/
def CompileErr.undefined_variable (name : String) (span : Span) : CompileErr :=
  .undefinedVariable name span

/-- CompileError::duplicate_definition. -/
def CompileErr.duplicate_definition (name : String) (span : Span) : CompileErr :=
  .duplicateDefinition name span

/-! ## symbol_table.rs -/

/-- Symbol kinds (symbol_table.rs `SymbolKind`). -/
inductive SymbolKind where
  | static | field | argument | local
deriving DecidableEq

/-- SymbolKind::to_segment. -/
def SymbolKind.to_segment : SymbolKind → String
  | .static => "static"
  | .field => "this"
  | .argument => "argument"
  | .local => "local"

/-- SymbolKind::is_class_level. -/
def SymbolKind.is_class_level : SymbolKind → Bool
  | .static | .field => Bool.true
  | _ => Bool.false

/-- A symbol entry (symbol_table.rs `Symbol`). -/
structure Symbol where
  name : String
  symbol_type : VarType
  kind : SymbolKind
  index : Nat
deriving DecidableEq

/-- Symbol::segment. -/
def Symbol.segment (s : Symbol) : String := s.kind.to_segment

/-- Two-scope symbol table (symbol_table.rs `SymbolTable`); each `HashMap`
is an association list whose keys stay distinct because `define` rejects
duplicates before inserting. -/
structure SymbolTable where
  class_scope : List (String × Symbol)
  subroutine_scope : List (String × Symbol)
  static_count : Nat
  field_count : Nat
  argument_count : Nat
  local_count : Nat
  class_name : String
deriving DecidableEq

namespace SymbolTable

/-- HashMap::contains_key on a scope. -/
def scopeContains (scope : List (String × Symbol)) (name : String) : Bool :=
  (scope.lookup name).isSome

/-- SymbolTable::new. -/
def new : SymbolTable := ⟨[], [], 0, 0, 0, 0, ""⟩

/-- SymbolTable::start_class. -/
def start_class (t : SymbolTable) (name : String) : SymbolTable :=
  ⟨[], [], 0, 0, 0, 0, name⟩

/-- SymbolTable::start_subroutine. -/
def start_subroutine (t : SymbolTable) : SymbolTable :=
  { t with subroutine_scope := [], argument_count := 0, local_count := 0 }

/-- SymbolTable::define. -/
def define (t : SymbolTable) (name : String) (symbol_type : VarType)
    (kind : SymbolKind) (span : Span) : Except CompileErr SymbolTable :=
  let scope := if kind.is_class_level then t.class_scope else t.subroutine_scope
  if scopeContains scope name then
    .error (CompileErr.duplicate_definition name span)
  else
    let (index, t) : Nat × SymbolTable :=
      match kind with
      | .static => (t.static_count, { t with static_count := t.static_count + 1 })
      | .field => (t.field_count, { t with field_count := t.field_count + 1 })
      | .argument => (t.argument_count, { t with argument_count := t.argument_count + 1 })
      | .local => (t.local_count, { t with local_count := t.local_count + 1 })
    let symbol : Symbol := ⟨name, symbol_type, kind, index⟩
    if kind.is_class_level then
      .ok { t with class_scope := (name, symbol) :: t.class_scope }
    else
      .ok { t with subroutine_scope := (name, symbol) :: t.subroutine_scope }

/-- SymbolTable::lookup. -/
def lookup (t : SymbolTable) (name : String) : Option Symbol :=
  (t.subroutine_scope.lookup name).orElse (fun _ => t.class_scope.lookup name)

/-- SymbolTable::var_count. -/
def var_count (t : SymbolTable) (kind : SymbolKind) : Nat :=
  match kind with
  | .static => t.static_count
  | .field => t.field_count
  | .argument => t.argument_count
  | .local => t.local_count

end SymbolTable

/-! ## vm_writer.rs and codegen.rs -/

/-- Code generator state (codegen.rs `CodeGenerator`); the `VMWriter` output
buffer is kept as the list of emitted lines (each Rust write appends exactly
one `'\n'`-terminated line). -/
structure CGState where
  symbols : SymbolTable
  out : List String
  label_counter : Nat
  class_name : String
  current_subroutine_kind : Option SubroutineKind
  errors : List CompileErr
  optimize : Bool
deriving DecidableEq

namespace CodeGenerator

/-- CodeGenerator::with_options. -/
def with_options (optimize : Bool) : CGState :=
  ⟨SymbolTable.new, [], 0, "", none, [], optimize⟩

/-- VMWriter::write_push (`write_u16` prints the `u16` index in decimal). -/
def write_push (s : CGState) (segment : String) (index : Nat) : CGState :=
  { s with out := s.out ++ ["push " ++ segment ++ " " ++ Nat.repr (index % 65536)] }

/-- VMWriter::write_pop. -/
def write_pop (s : CGState) (segment : String) (index : Nat) : CGState :=
  { s with out := s.out ++ ["pop " ++ segment ++ " " ++ Nat.repr (index % 65536)] }

/-- VMWriter::write_arithmetic. -/
def write_arithmetic (s : CGState) (cmd : String) : CGState :=
  { s with out := s.out ++ [cmd] }

/-- VMWriter::write_label. -/
def write_label (s : CGState) (label : String) : CGState :=
  { s with out := s.out ++ ["label " ++ label] }

/-- VMWriter::write_goto. -/
def write_goto (s : CGState) (label : String) : CGState :=
  { s with out := s.out ++ ["goto " ++ label] }

/-- VMWriter::write_if_goto. -/
def write_if_goto (s : CGState) (label : String) : CGState :=
  { s with out := s.out ++ ["if-goto " ++ label] }

/-- VMWriter::write_call. -/
def write_call (s : CGState) (name : String) (num_args : Nat) : CGState :=
  { s with out := s.out ++ ["call " ++ name ++ " " ++ Nat.repr (num_args % 65536)] }

/-- VMWriter::write_return. -/
def write_return (s : CGState) : CGState :=
  { s with out := s.out ++ ["return"] }

/-- VMWriter::into_output: the buffer is the concatenation of the emitted
lines, each ending in `'\n'`. -/
def vmOut (lines : List String) : String :=
  String.join (lines.map (fun l => l ++ "\n"))

/-- CodeGenerator::unique_label (`write_u32` prints the `u32` counter). -/
def unique_label (s : CGState) (stem : String) : String × CGState :=
  (stem ++ "_" ++ Nat.repr (s.label_counter % 4294967296),
   { s with label_counter := s.label_counter + 1 })

/-- CodeGenerator::error. -/
def pushError (s : CGState) (e : CompileErr) : CGState :=
  { s with errors := s.errors ++ [e] }

/-- CodeGenerator::compile_keyword_constant. -/
def compile_keyword_constant (s : CGState) (kw : KeywordConstant) : CGState :=
  match kw with
  | .true => write_arithmetic (write_push s "constant" 0) "not"
  | .false | .null => write_push s "constant" 0
  | .this => write_push s "pointer" 0

/-- Per-character loop of compile_string_constant. -/
def stringCharsLoop (s : CGState) : List Char → CGState
  | [] => s
  | ch :: rest =>
    stringCharsLoop (write_call (write_push s "constant" (ch.toNat % 65536)) "String.appendChar" 2) rest

/-- CodeGenerator::compile_string_constant (`s.len()` is the UTF-8 byte
length, cast to `u16`). -/
def compile_string_constant (s : CGState) (str : String) : CGState :=
  let len := str.utf8ByteSize % 65536
  let s := write_call (write_push s "constant" len) "String.new" 1
  stringCharsLoop s str.data

/-- CodeGenerator::compile_binary_op. -/
def compile_binary_op (s : CGState) (op : BinaryOp) : CGState :=
  match op with
  | .add => write_arithmetic s "add"
  | .sub => write_arithmetic s "sub"
  | .and => write_arithmetic s "and"
  | .or => write_arithmetic s "or"
  | .lt => write_arithmetic s "lt"
  | .gt => write_arithmetic s "gt"
  | .eq => write_arithmetic s "eq"
  | .mul => write_call s "Math.multiply" 2
  | .div => write_call s "Math.divide" 2

/-- CodeGenerator::emit_shift_left: `shifts` duplicate-and-add steps over the
`temp 0` scratch slot. -/
def emit_shift_left (shifts : Nat) (s : CGState) : CGState :=
  match shifts with
  | 0 => s
  | k + 1 =>
    let s := write_pop s "temp" 0
    let s := write_push s "temp" 0
    let s := write_push s "temp" 0
    let s := write_arithmetic s "add"
    emit_shift_left k s

/-- Every `Term` has positive size (used by the termination measures). -/
theorem term_sizeOf_pos (t : Term) : 1 ≤ sizeOf t := by
  cases t <;> simp_arith

/-- Every `OpList` has positive size (used by the termination measures). -/
theorem opList_sizeOf_pos (ops : OpList) : 1 ≤ sizeOf ops := by
  cases ops <;> simp_arith

mutual

/-- CodeGenerator::compile_expression: constant folding first, then
strength reduction, then the generic term-by-term path.  A Rust panic inside
the folder propagates as `.error ()`. -/
def compile_expression : Expression → CGState → Except Unit CGState
  | .mk term ops sp, s =>
    if s.optimize then
      match ConstantFolder.fold_expression (.mk term ops sp) with
      | .error () => .error ()
      | .ok (some value) =>
        if 0 ≤ value ∧ value ≤ 32767 then
          .ok (write_push s "constant" value.toNat)
        else if -32768 ≤ value ∧ value < 0 then
          .ok (write_arithmetic (write_push s "constant" (-value).toNat) "neg")
        else compileExpressionRest term ops s
      | .ok none => compileExpressionRest term ops s
    else compileExpressionRest term ops s
termination_by e s => sizeOf e
decreasing_by all_goals simp_wf <;> omega

/-- Fallthrough of compile_expression past the folding attempt: the
left-operand strength-reduction pattern, else the normal path. -/
def compileExpressionRest : Term → OpList → CGState → Except Unit CGState
  | .integerConstant n nsp, .cons .mul right_term restOps, s =>
    if s.optimize then
      match StrengthReduction.optimize_multiply n with
      | some shifts => do
        let s ← compile_term right_term s
        let s := emit_shift_left shifts s
        compileOpsPlain restOps s
      | none => do
        let s ← compile_term (.integerConstant n nsp) s
        compileOpsLoop (.cons .mul right_term restOps) s
    else do
      let s ← compile_term (.integerConstant n nsp) s
      compileOpsLoop (.cons .mul right_term restOps) s
  | term, ops, s => do
    let s ← compile_term term s
    compileOpsLoop ops s
termination_by term ops s => sizeOf term + sizeOf ops
decreasing_by
all_goals simp_wf
all_goals try omega
all_goals first
  | (have h := opList_sizeOf_pos ops; omega)
  | (have h := term_sizeOf_pos term; omega)

/-- Normal operator loop of compile_expression, with the right-operand
strength-reduction check on each `(op, term)` pair. -/
def compileOpsLoop : OpList → CGState → Except Unit CGState
  | .nil, s => .ok s
  | .cons .mul (.integerConstant n sp) rest, s =>
    if s.optimize then
      match StrengthReduction.optimize_multiply n with
      | some shifts => compileOpsLoop rest (emit_shift_left shifts s)
      | none => do
        let s ← compile_term (.integerConstant n sp) s
        compileOpsLoop rest (compile_binary_op s .mul)
    else do
      let s ← compile_term (.integerConstant n sp) s
      compileOpsLoop rest (compile_binary_op s .mul)
  | .cons op t rest, s => do
    let s ← compile_term t s
    compileOpsLoop rest (compile_binary_op s op)
termination_by ops s => sizeOf ops
decreasing_by all_goals simp_wf <;> omega

/-- Remaining-operator loop (`ops.iter().skip(1)`) of the left-operand
strength-reduction branch: plain `compile_term` plus `compile_binary_op`. -/
def compileOpsPlain : OpList → CGState → Except Unit CGState
  | .nil, s => .ok s
  | .cons op t rest, s => do
    let s ← compile_term t s
    compileOpsPlain rest (compile_binary_op s op)
termination_by ops s => sizeOf ops
decreasing_by all_goals simp_wf <;> omega

/-- CodeGenerator::compile_term. -/
def compile_term : Term → CGState → Except Unit CGState
  | .integerConstant value _, s => .ok (write_push s "constant" value)
  | .stringConstant str _, s => .ok (compile_string_constant s str)
  | .keywordConstant kw _, s => .ok (compile_keyword_constant s kw)
  | .varName name span, s =>
    (match s.symbols.lookup name with
     | some symbol => .ok (write_push s symbol.segment symbol.index)
     | none => .ok (pushError s (CompileErr.undefined_variable name span)))
  | .arrayAccess name index_expr span, s =>
    (match s.symbols.lookup name with
     | some symbol => do
       let s := write_push s symbol.segment symbol.index
       let s ← compile_expression index_expr s
       let s := write_arithmetic s "add"
       let s := write_pop s "pointer" 1
       .ok (write_push s "that" 0)
     | none => .ok (pushError s (CompileErr.undefined_variable name span)))
  | .subroutineCall call, s => compile_subroutine_call call s
  | .parenthesized e _, s => compile_expression e s
  | .unaryOp op inner _, s => do
    let s ← compile_term inner s
    match op with
    | .neg => .ok (write_arithmetic s "neg")
    | .not => .ok (write_arithmetic s "not")
termination_by t s => sizeOf t
decreasing_by all_goals simp_wf <;> omega

/-- CodeGenerator::compile_subroutine_call. -/
def compile_subroutine_call : SubroutineCall → CGState → Except Unit CGState
  | .mk receiver name arguments _, s =>
    let (class_name_owned, num_args, s) : String × Nat × CGState :=
      match receiver with
      | some r =>
        match s.symbols.lookup r with
        | some symbol =>
          let s := write_push s symbol.segment symbol.index
          let cn := match symbol.symbol_type with
            | .className n => n
            | _ => r
          (cn, arguments.length + 1, s)
        | none => (r, arguments.length, s)
      | none =>
        (s.class_name, arguments.length + 1, write_push s "pointer" 0)
    do
      let s ← compileArgsLoop arguments s
      .ok { s with out := s.out ++
        ["call " ++ class_name_owned ++ "." ++ name ++ " " ++ Nat.repr (num_args % 65536)] }
termination_by call s => sizeOf call
decreasing_by all_goals simp_wf <;> omega

/-- Argument loop of compile_subroutine_call. -/
def compileArgsLoop : ExprList → CGState → Except Unit CGState
  | .nil, s => .ok s
  | .cons e rest, s => do
    let s ← compile_expression e s
    compileArgsLoop rest s
termination_by args s => sizeOf args
decreasing_by all_goals simp_wf <;> omega

end

end CodeGenerator

/-- Every `StmtList` has positive size (used by the termination measures). -/
theorem stmtList_sizeOf_pos (l : StmtList) : 1 ≤ sizeOf l := by
  cases l <;> simp_arith

/-- Every `Expression` has positive size (used by the termination measures). -/
theorem expression_sizeOf_pos (e : Expression) : 1 ≤ sizeOf e := by
  cases e <;> simp_arith

namespace CodeGenerator

/-- CodeGenerator::compile_let. -/
def compile_let (var_name : String) (index : Option Expression) (value : Expression)
    (span : Span) (s : CGState) : Except Unit CGState :=
  match s.symbols.lookup var_name with
  | none => .ok (pushError s (CompileErr.undefined_variable var_name span))
  | some symbol =>
    match index with
    | some index_expr => do
      let s := write_push s symbol.segment symbol.index
      let s ← compile_expression index_expr s
      let s := write_arithmetic s "add"
      let s ← compile_expression value s
      let s := write_pop s "temp" 0
      let s := write_pop s "pointer" 1
      let s := write_push s "temp" 0
      .ok (write_pop s "that" 0)
    | none => do
      let s ← compile_expression value s
      .ok (write_pop s symbol.segment symbol.index)

/-- CodeGenerator::compile_do. -/
def compile_do (call : SubroutineCall) (s : CGState) : Except Unit CGState := do
  let s ← compile_subroutine_call call s
  .ok (write_pop s "temp" 0)

/-- CodeGenerator::compile_return. -/
def compile_return (value : Option Expression) (s : CGState) : Except Unit CGState := do
  let s ← match value with
    | some expr => compile_expression expr s
    | none => .ok (write_push s "constant" 0)
  .ok (write_return s)

mutual

/-- CodeGenerator::compile_statement. -/
def compile_statement : Statement → CGState → Except Unit CGState
  | .letStmt var_name index value sp, s => compile_let var_name index value sp s
  | .ifStmt condition then_statements else_statements sp, s =>
    compile_if condition then_statements else_statements sp s
  | .whileStmt condition statements sp, s => compile_while condition statements sp s
  | .doStmt call _, s => compile_do call s
  | .returnStmt value _, s => compile_return value s
termination_by st s => sizeOf st
decreasing_by
all_goals simp_wf
all_goals try omega
all_goals (have h := expression_sizeOf_pos condition; omega)

/-- CodeGenerator::compile_statements. -/
def compileStatements : StmtList → CGState → Except Unit CGState
  | .nil, s => .ok s
  | .cons st rest, s => do
    let s ← compile_statement st s
    compileStatements rest s
termination_by l s => sizeOf l
decreasing_by all_goals simp_wf <;> omega

/-- CodeGenerator::compile_if. -/
def compile_if (condition : Expression) (then_statements : StmtList)
    (else_statements : OptStmtList) (sp : Span) (s : CGState) : Except Unit CGState := do
  let (false_label, s) := unique_label s "IF_FALSE"
  let (end_label, s) := unique_label s "IF_END"
  let s ← compile_expression condition s
  let s := write_arithmetic s "not"
  let s := write_if_goto s false_label
  let s ← compileStatements then_statements s
  let s := write_goto s end_label
  let s := write_label s false_label
  let s ← match else_statements with
    | .some else_stmts => compileStatements else_stmts s
    | .none => .ok s
  .ok (write_label s end_label)
termination_by sizeOf then_statements + sizeOf else_statements + 1
decreasing_by
all_goals simp_wf
all_goals have h := expression_sizeOf_pos condition
all_goals omega

/-- CodeGenerator::compile_while. -/
def compile_while (condition : Expression) (statements : StmtList) (sp : Span)
    (s : CGState) : Except Unit CGState := do
  let (exp_label, s) := unique_label s "WHILE_EXP"
  let (end_label, s) := unique_label s "WHILE_END"
  let s := write_label s exp_label
  let s ← compile_expression condition s
  let s := write_arithmetic s "not"
  let s := write_if_goto s end_label
  let s ← compileStatements statements s
  let s := write_goto s exp_label
  .ok (write_label s end_label)
termination_by sizeOf statements + 1
decreasing_by
all_goals simp_wf
all_goals have h := expression_sizeOf_pos condition
all_goals omega

end

/-- Name loop of CodeGenerator::compile_class_var_dec. -/
def defineClassVarNames (kind : SymbolKind) (var_type : VarType) (span : Span) :
    List String → CGState → CGState
  | [], s => s
  | name :: rest, s =>
    match s.symbols.define name var_type kind span with
    | .ok symbols => defineClassVarNames kind var_type span rest { s with symbols := symbols }
    | .error e => defineClassVarNames kind var_type span rest (pushError s e)

/-- CodeGenerator::compile_class_var_dec. -/
def compile_class_var_dec (dec : ClassVarDec) (s : CGState) : CGState :=
  let kind := match dec.kind with
    | .static => SymbolKind.static
    | .field => SymbolKind.field
  defineClassVarNames kind dec.var_type dec.sp dec.names s

/-- Parameter loop of CodeGenerator::compile_subroutine. -/
def defineParams (span : Span) : List Parameter → CGState → CGState
  | [], s => s
  | param :: rest, s =>
    match s.symbols.define param.name param.var_type SymbolKind.argument span with
    | .ok symbols => defineParams span rest { s with symbols := symbols }
    | .error e => defineParams span rest (pushError s e)

/-- Inner name loop of the local-variable definitions of compile_subroutine. -/
def defineVarDecNames (var_type : VarType) (span : Span) : List String → CGState → CGState
  | [], s => s
  | name :: rest, s =>
    match s.symbols.define name var_type SymbolKind.local span with
    | .ok symbols => defineVarDecNames var_type span rest { s with symbols := symbols }
    | .error e => defineVarDecNames var_type span rest (pushError s e)

/-- Outer var-dec loop of compile_subroutine. -/
def defineVarDecs : List VarDec → CGState → CGState
  | [], s => s
  | dec :: rest, s => defineVarDecs rest (defineVarDecNames dec.var_type dec.sp dec.names s)

/-- CodeGenerator::compile_subroutine. -/
def compile_subroutine (sub : SubroutineDec) (s : CGState) : Except Unit CGState := do
  let s := { s with symbols := s.symbols.start_subroutine,
                    current_subroutine_kind := some sub.kind }
  let s :=
    if sub.kind = SubroutineKind.method then
      match s.symbols.define "this" (VarType.className s.class_name)
          SymbolKind.argument sub.sp with
      | .ok symbols => { s with symbols := symbols }
      | .error e => pushError s e
    else s
  let s := defineParams sub.sp sub.parameters s
  let s := defineVarDecs sub.body.var_decs s
  let num_locals := s.symbols.var_count SymbolKind.local
  let s := { s with out := s.out ++
    ["function " ++ s.class_name ++ "." ++ sub.name ++ " " ++ Nat.repr (num_locals % 65536)] }
  let s :=
    match sub.kind with
    | .constructor =>
      let field_count := s.symbols.field_count
      write_pop (write_call (write_push s "constant" field_count) "Memory.alloc" 1) "pointer" 0
    | .method =>
      write_pop (write_push s "argument" 0) "pointer" 0
    | .function => s
  compileStatements sub.body.statements s

/-- Class-var-dec loop of CodeGenerator::compile_class. -/
def compileClassVarDecs : List ClassVarDec → CGState → CGState
  | [], s => s
  | dec :: rest, s => compileClassVarDecs rest (compile_class_var_dec dec s)

/-- Subroutine loop of CodeGenerator::compile_class. -/
def compileSubroutines : List SubroutineDec → CGState → Except Unit CGState
  | [], s => .ok s
  | sub :: rest, s => do
    let s ← compile_subroutine sub s
    compileSubroutines rest s

/-- CodeGenerator::compile_class. -/
def compile_class (c : Class) (s : CGState) : Except Unit CGState :=
  let s := { s with class_name := c.name, symbols := s.symbols.start_class c.name }
  let s := compileClassVarDecs c.class_var_decs s
  compileSubroutines c.subroutine_decs s

/-- CodeGenerator::compile_with_options: `.error ()` is a Rust panic escaping
the compiler; otherwise the all-or-nothing result of the class compilation. -/
def compile_with_options (c : Class) (optimize : Bool) :
    Except Unit (Except (List CompileErr) String) := do
  let s ← compile_class c (with_options optimize)
  if s.errors.isEmpty then .ok (.ok (vmOut s.out)) else .ok (.error s.errors)

/-- CodeGenerator::compile. -/
def compile (c : Class) : Except Unit (Except (List CompileErr) String) :=
  compile_with_options c Bool.true

end CodeGenerator

/-! ## lib.rs -/

/-- Per-file compilation result (lib.rs `CompileResult`). -/
structure CompileResult where
  filename : String
  vm_code : String
  errors : List CompileErr
deriving DecidableEq

/-- CompileResult::is_ok. -/
def CompileResult.is_ok (r : CompileResult) : Bool := r.errors.isEmpty

/-- Compilation options (lib.rs `CompileOptions`). -/
structure CompileOptions where
  optimize : Bool
deriving DecidableEq

/-- Default for CompileOptions. -/
def CompileOptions.default : CompileOptions := ⟨Bool.true⟩

/-- lib.rs `compile_source_with_options`; `.error ()` is a Rust panic escaping
the pipeline (reachable only through the constant folder). -/
def compile_source_with_options (source : String) (filename : String)
    (options : CompileOptions) : Except Unit CompileResult :=
  match Tokenizer.tokenize source with
  | .error errors =>
    .ok ⟨filename, "", errors.map CompileErr.parse⟩
  | .ok tokens =>
    match Parser.parse tokens with
    | .error errors =>
      .ok ⟨filename, "", errors.map CompileErr.parse⟩
    | .ok class_ =>
      match CodeGenerator.compile_with_options class_ options.optimize with
      | .error () => .error ()
      | .ok (.ok vm_code) =>
        let vm_code := if options.optimize then Peephole.optimize vm_code else vm_code
        .ok ⟨filename, vm_code, []⟩
      | .ok (.error errors) =>
        .ok ⟨filename, "", errors⟩

/-- lib.rs `compile_source`. -/
def compile_source (source : String) (filename : String) : Except Unit CompileResult :=
  compile_source_with_options source filename CompileOptions.default

/-! ## Concrete values used by the verification theorems below -/

/-- A placeholder span for hand-built AST values. -/
def spX : Span := Span.new 0 0 1 1

/-- Operator chain `* 2 * 2 * ... * 2 / (-1)` with the given number of
multiplications. -/
def pow2ChainOps : Nat → OpList
  | 0 => .cons .div (.unaryOp .neg (.integerConstant 1 spX) spX) .nil
  | k + 1 => .cons .mul (.integerConstant 2 spX) (pow2ChainOps k)

/-- The Jack expression `2 * 2 * ... * 2 / (-1)` (31 factors of two): its
left-to-right folding wraps to `i32::MIN` and then divides by `-1`. -/
def minDivMinusOneExpr : Expression := .mk (.integerConstant 2 spX) (pow2ChainOps 30) spX

/-- VM text on which the peephole pass needs three applications to reach a
fixed point: eliminating the push/pop pair exposes `not`/`not`, whose
elimination exposes `neg`/`neg`. -/
def peepCascadeInput : String := "neg\nnot\npush local 3\npop local 3\nnot\nneg\n"

/-- Sum of the line lengths plus one newline each: the character count of the
joined VM text. -/
def charSize (ls : List String) : Nat := (ls.map (fun l => l.length + 1)).sum

/-- Lines emitted for each keyword constant, as the specification states
them. -/
def kwLines : KeywordConstant → List String
  | .true => ["push constant 0", "not"]
  | .false | .null => ["push constant 0"]
  | .this => ["push pointer 0"]

/-- A class whose only subroutine body is `return true;` — it contains the
keyword constant `true` inside a fully-foldable expression. -/
def trueReturnClass : Class :=
  ⟨"T", [],
   [⟨SubroutineKind.function, ReturnType.type VarType.boolean, "f", [],
     ⟨[], .cons (.returnStmt (some (.mk (.keywordConstant .true spX) .nil spX)) spX) .nil, spX⟩,
     spX⟩],
   spX⟩

/-- The doubling blocks emitted by `emit_shift_left`: `shifts` copies of the
four-instruction duplicate-and-add sequence. -/
def doubleBlocks : Nat → List String
  | 0 => []
  | k + 1 => ["pop temp 0", "push temp 0", "push temp 0", "add"] ++ doubleBlocks k

/-- A code-generator state whose subroutine scope holds one local `x` (as
after `var int x;`), with optimizations enabled. -/
def cgStateLocalX : CGState :=
  ⟨⟨[], [("x", ⟨"x", VarType.int, SymbolKind.local, 0⟩)], 0, 0, 0, 1, "Main"⟩,
   [], 0, "Main", none, [], Bool.true⟩

/-- One application of Rust line-splitting's trailing-carriage-return strip,
at the `String` level. -/
def strip1CR (l : String) : String := String.mk (Peephole.stripTrailingCR l.data)

/-- A parser state sitting at expression depth `MAX_DEPTH` whose error
accumulator is already full (20 errors out of a maximum of 20). -/
def fullAccParserState : ParserState :=
  ⟨[], 0, ⟨List.replicate 20 (JackErr.lexicalErr spX "e"), 20⟩, 25⟩


/-- Source text whose compilation succeeds end to end. -/
def goodSrc : String := "class T \x7b function int f() \x7b return true; \x7d \x7d"

/-- The token list produced by the tokenizer on `goodSrc`. -/
def goodToks : List SpannedToken :=
  match Tokenizer.tokenize goodSrc with
  | .ok t => t
  | .error _ => []

/-- The class the parser produces on `goodSrc`. -/
def goodCls : Class :=
  ⟨"T", [],
   [⟨SubroutineKind.function, ReturnType.type VarType.int, "f", [],
     ⟨[],
      .cons (.returnStmt (some (.mk (.keywordConstant .true (Span.new 36 40 1 37)) .nil (Span.new 36 40 1 37))) (Span.new 29 35 1 30)) .nil,
      Span.new 27 28 1 28⟩,
     Span.new 10 18 1 11⟩],
   Span.new 0 5 1 1⟩

/-- The VM text the code generator produces on `goodCls`. -/
def goodVm : String := "function T.f 0\npush constant 1\nneg\nreturn\n"

/-- Source text whose only flaw is an undefined variable, caught by the code
generator. -/
def undefSrc : String := "class T \x7b function int f() \x7b return x; \x7d \x7d"

/-- The token list produced by the tokenizer on `undefSrc`. -/
def undefToks : List SpannedToken :=
  match Tokenizer.tokenize undefSrc with
  | .ok t => t
  | .error _ => []

/-- The class the parser produces on `undefSrc`. -/
def undefCls : Class :=
  ⟨"T", [],
   [⟨SubroutineKind.function, ReturnType.type VarType.int, "f", [],
     ⟨[],
      .cons (.returnStmt (some (.mk (.varName "x" (Span.new 36 37 1 37)) .nil (Span.new 36 37 1 37))) (Span.new 29 35 1 30)) .nil,
      Span.new 27 28 1 28⟩,
     Span.new 10 18 1 11⟩],
   Span.new 0 5 1 1⟩

/-- The token list produced by the tokenizer on `"class 5"`. -/
def badParseToks : List SpannedToken :=
  match Tokenizer.tokenize "class 5" with
  | .ok t => t
  | .error _ => []

/-- The three syntax errors the parser reports on `"class 5"`. -/
def badParseErrs : List JackErr :=
  [JackErr.synError (Span.new 6 7 1 7) "expected identifier, got integer 5" ["identifier"],
   JackErr.synError (Span.new 6 7 1 7) "expected '\x7b', got integer 5" ["\x7b"],
   JackErr.synError (Span.new 6 7 1 7) "expected '\x7d', got integer 5" ["\x7d"]]

end Jack

open Jack

/-- C6: `define` reports a duplicate exactly when the name is already present
in the targeted scope (class scope for static/field, subroutine scope for
argument/local); `lookup` prefers the subroutine scope and falls back to the
class scope; and after defining `v` as a field and then as a local, `lookup`
returns the local entry with index 0. -/
theorem c6_define_scopes_lookup_shadowing :
    (∀ (t : SymbolTable) (name : String) (ty : VarType) (kind : SymbolKind) (span : Span),
      t.define name ty kind span = .error (CompileErr.duplicate_definition name span) ↔
        SymbolTable.scopeContains
          (if kind.is_class_level then t.class_scope else t.subroutine_scope) name = Bool.true) ∧
    (∀ (t : SymbolTable) (name : String) (sym : Symbol),
      (t.subroutine_scope.lookup name = some sym → t.lookup name = some sym) ∧
      (t.subroutine_scope.lookup name = none → t.lookup name = t.class_scope.lookup name)) ∧
    ((SymbolTable.new.define "v" VarType.int SymbolKind.field spX).bind
        (fun t => (t.define "v" VarType.int SymbolKind.local spX).map
          (fun t2 => t2.lookup "v")) =
      .ok (some ⟨"v", VarType.int, SymbolKind.local, 0⟩)) := by
  refine ⟨fun t name ty kind span => ?_, fun t name sym => ⟨fun h => ?_, fun h => ?_⟩, by decide⟩
  · constructor
    · intro h
      by_cases hc : SymbolTable.scopeContains
          (if kind.is_class_level then t.class_scope else t.subroutine_scope) name = Bool.true
      · exact hc
      · exfalso
        simp only [SymbolTable.define] at h
        rw [if_neg (by simpa using hc)] at h
        cases kind <;> simp [SymbolKind.is_class_level] at h
    · intro hc
      simp only [SymbolTable.define]
      rw [if_pos (by simpa using hc)]
  · simp [SymbolTable.lookup, h, Option.orElse]
  · simp [SymbolTable.lookup, h, Option.orElse]

/-- C7: `start_subroutine` clears exactly the subroutine scope and resets the
argument and local counters, leaving the class scope, static and field
counters and the class name untouched; afterwards every lookup resolves
through the class scope alone, so names defined only in the prior subroutine
are unresolvable while class-scope entries keep their kind and index. -/
theorem c7_start_subroutine_frame :
    ∀ t : SymbolTable,
      t.start_subroutine.subroutine_scope = [] ∧
      t.start_subroutine.argument_count = 0 ∧
      t.start_subroutine.local_count = 0 ∧
      t.start_subroutine.class_scope = t.class_scope ∧
      t.start_subroutine.static_count = t.static_count ∧
      t.start_subroutine.field_count = t.field_count ∧
      t.start_subroutine.class_name = t.class_name ∧
      (∀ name, t.start_subroutine.lookup name = t.class_scope.lookup name) := by
  intro t
  refine ⟨rfl, rfl, rfl, rfl, rfl, rfl, rfl, fun name => ?_⟩
  simp [SymbolTable.lookup, SymbolTable.start_subroutine, Option.orElse]

/-- C10: the claim that `fold_expression` never panics is the documented
intent, but the code divides with Rust's overflowing `/`: folding the
expression `2 * 2 * ... * 2 / (-1)` (31 twos) wraps the product to
`-2147483648` and then `apply_op (-2147483648) Div (-1)` aborts the process,
modelled here as `.error ()`. -/
theorem c10_fold_division_overflow_panics :
    ConstantFolder.apply_op (-2147483648) BinaryOp.div (-1) = .error () ∧
    ConstantFolder.fold_expression minDivMinusOneExpr = .error () := by
  constructor
  · decide
  · set_option maxRecDepth 20000 in decide

/-! ## Peephole lemmas for C1 and C8 -/

theorem splitNl_ne_nil (cs : List Char) : Peephole.splitNl cs ≠ [] := by
  induction cs with
  | nil => simp [Peephole.splitNl]
  | cons c rest ih =>
    simp only [Peephole.splitNl]
    by_cases h : c = '\n'
    · simp [h]
    · simp only [if_neg h]
      cases hs : Peephole.splitNl rest with
      | nil => simp
      | cons l ls => simp

theorem splitNl_no_nl (cs : List Char) : ∀ l ∈ Peephole.splitNl cs, '\n' ∉ l := by
  induction cs with
  | nil => intro l hl; simp [Peephole.splitNl] at hl; simp [hl]
  | cons c rest ih =>
    intro l hl
    simp only [Peephole.splitNl] at hl
    by_cases h : c = '\n'
    · rw [if_pos h] at hl
      rcases List.mem_cons.mp hl with h1 | h1
      · simp [h1]
      · exact ih l h1
    · rw [if_neg h] at hl
      cases hs : Peephole.splitNl rest with
      | nil => exact absurd hs (splitNl_ne_nil rest)
      | cons p ps =>
        rw [hs] at hl
        rcases List.mem_cons.mp hl with h1 | h1
        · subst h1
          intro hmem
          rcases List.mem_cons.mp hmem with h2 | h2
          · exact h h2.symm
          · exact ih p (hs ▸ List.mem_cons_self p ps) h2
        · exact ih l (hs ▸ List.mem_cons_of_mem p h1)

theorem stripTrailingCR_no_nl (l : List Char) (h : '\n' ∉ l) :
    '\n' ∉ Peephole.stripTrailingCR l := by
  unfold Peephole.stripTrailingCR
  split
  · intro hmem
    exact h (List.dropLast_subset l hmem)
  · exact h

theorem dropFinalEmpty_subset (parts : List (List Char)) :
    ∀ l ∈ Peephole.dropFinalEmpty parts, l ∈ parts := by
  intro l hl
  unfold Peephole.dropFinalEmpty at hl
  split at hl
  · exact List.dropLast_subset parts hl
  · exact hl

theorem rustLines_no_nl (x : String) :
    ∀ l ∈ Peephole.rustLines x, '\n' ∉ l.data := by
  intro l hl
  unfold Peephole.rustLines at hl
  rcases List.mem_map.mp hl with ⟨cs, hcs, hmk⟩
  rcases List.mem_map.mp hcs with ⟨cs0, hcs0, hstrip⟩
  subst hmk
  subst hstrip
  exact stripTrailingCR_no_nl cs0 (splitNl_no_nl x.data cs0 (dropFinalEmpty_subset _ cs0 hcs0))

theorem peepScan_mem (ls : List String) :
    ∀ l ∈ Peephole.peepScan ls, l ∈ ls ∨ l = "push constant 0" ∨ l = "not" := by
  induction ls using Peephole.peepScan.induct with
  | case1 => intro l hl; simp [Peephole.peepScan] at hl
  | case2 a => intro l hl; simp [Peephole.peepScan] at hl; simp [hl]
  | case3 a b rest h1 ih =>
    intro l hl
    rw [Peephole.peepScan, if_pos h1] at hl
    rcases ih l hl with h | h
    · exact Or.inl (by simp [h])
    · exact Or.inr h
  | case4 a b rest h1 h2 ih =>
    intro l hl
    rw [Peephole.peepScan, if_neg h1, if_pos h2] at hl
    rcases ih l hl with h | h
    · exact Or.inl (by simp [h])
    · exact Or.inr h
  | case5 a b rest h1 h2 h3 ih =>
    intro l hl
    rw [Peephole.peepScan, if_neg h1, if_neg h2, if_pos h3] at hl
    rcases ih l hl with h | h
    · exact Or.inl (by simp [h])
    · exact Or.inr h
  | case6 a b rest h1 h2 h3 h4 ih =>
    intro l hl
    rw [Peephole.peepScan, if_neg h1, if_neg h2, if_neg h3, if_pos h4] at hl
    rcases ih l hl with h | h
    · exact Or.inl (by simp [h])
    · exact Or.inr h
  | case7 a b rest h1 h2 h3 h4 h5 ih =>
    intro l hl
    rw [Peephole.peepScan, if_neg h1, if_neg h2, if_neg h3, if_neg h4, if_pos h5] at hl
    rcases List.mem_cons.mp hl with h | h
    · exact Or.inr (Or.inl h)
    · rcases List.mem_cons.mp h with h' | h'
      · exact Or.inr (Or.inr h')
      · rcases ih l h' with h'' | h''
        · exact Or.inl (by simp [h''])
        · exact Or.inr h''
  | case8 a b rest h1 h2 h3 h4 h5 ih =>
    intro l hl
    rw [Peephole.peepScan, if_neg h1, if_neg h2, if_neg h3, if_neg h4, if_neg h5] at hl
    rcases List.mem_cons.mp hl with h | h
    · exact Or.inl (by simp [h])
    · rcases ih l h with h' | h'
      · exact Or.inl (List.mem_cons_of_mem a h')
      · exact Or.inr h'

theorem peepScan_length_le (ls : List String) :
    (Peephole.peepScan ls).length ≤ ls.length := by
  induction ls using Peephole.peepScan.induct with
  | case1 => simp [Peephole.peepScan]
  | case2 a => simp [Peephole.peepScan]
  | case3 a b rest h1 ih =>
    rw [Peephole.peepScan, if_pos h1]
    simp only [List.length_cons]
    omega
  | case4 a b rest h1 h2 ih =>
    rw [Peephole.peepScan, if_neg h1, if_pos h2]
    simp only [List.length_cons]
    omega
  | case5 a b rest h1 h2 h3 ih =>
    rw [Peephole.peepScan, if_neg h1, if_neg h2, if_pos h3]
    simp only [List.length_cons]
    omega
  | case6 a b rest h1 h2 h3 h4 ih =>
    rw [Peephole.peepScan, if_neg h1, if_neg h2, if_neg h3, if_pos h4]
    simp only [List.length_cons]
    omega
  | case7 a b rest h1 h2 h3 h4 h5 ih =>
    rw [Peephole.peepScan, if_neg h1, if_neg h2, if_neg h3, if_neg h4, if_pos h5]
    simp only [List.length_cons]
    omega
  | case8 a b rest h1 h2 h3 h4 h5 ih =>
    rw [Peephole.peepScan, if_neg h1, if_neg h2, if_neg h3, if_neg h4, if_neg h5]
    simp only [List.length_cons] at ih ⊢
    omega

theorem splitNl_append_nl (l rest : List Char) (h : '\n' ∉ l) :
    Peephole.splitNl (l ++ '\n' :: rest) = l :: Peephole.splitNl rest := by
  induction l with
  | nil => simp [Peephole.splitNl]
  | cons c cs ih =>
    have hc : ¬(c = '\n') := fun he => h (he ▸ List.mem_cons_self c cs)
    have hcs : '\n' ∉ cs := fun hm => h (List.mem_cons_of_mem c hm)
    show Peephole.splitNl (c :: (cs ++ '\n' :: rest)) = _
    simp only [Peephole.splitNl, if_neg hc]
    rw [ih hcs]

theorem joinNl_cons_data (l : String) (ls : List String) (h : ls ≠ []) :
    (Peephole.joinNl (l :: ls)).data = l.data ++ '\n' :: (Peephole.joinNl ls).data := by
  cases ls with
  | nil => exact absurd rfl h
  | cons l2 rest =>
    show (l ++ "\n" ++ Peephole.joinNl (l2 :: rest)).data = _
    rw [String.data_append, String.data_append]
    simp

theorem splitNl_unlines (ls : List String) (hne : ls ≠ [])
    (hok : ∀ l ∈ ls, '\n' ∉ String.data l) :
    Peephole.splitNl ((Peephole.joinNl ls ++ "\n").data) = ls.map String.data ++ [[]] := by
  induction ls with
  | nil => exact absurd rfl hne
  | cons l rest ih =>
    have hl : '\n' ∉ l.data := hok l (List.mem_cons_self l rest)
    cases hrest : rest with
    | nil =>
      subst hrest
      show Peephole.splitNl ((l ++ "\n").data) = _
      rw [String.data_append]
      have : ("\n" : String).data = ['\n'] := rfl
      rw [this, splitNl_append_nl l.data [] hl]
      rfl
    | cons r rs =>
      rw [← hrest]
      have hrne : rest ≠ [] := by rw [hrest]; simp
      rw [String.data_append, joinNl_cons_data l rest hrne]
      have : l.data ++ ('\n' :: (Peephole.joinNl rest).data) ++ ("\n" : String).data =
          l.data ++ '\n' :: ((Peephole.joinNl rest ++ "\n").data) := by
        rw [String.data_append]
        simp
      rw [this, splitNl_append_nl l.data _ hl,
        ih hrne (fun x hx => hok x (List.mem_cons_of_mem l hx))]
      rfl

theorem rustLines_unlines (ls : List String) (hne : ls ≠ [])
    (hok : ∀ l ∈ ls, '\n' ∉ String.data l) :
    Peephole.rustLines (Peephole.joinNl ls ++ "\n") = ls.map strip1CR := by
  unfold Peephole.rustLines
  rw [splitNl_unlines ls hne hok]
  have hdrop : Peephole.dropFinalEmpty (ls.map String.data ++ [[]]) = ls.map String.data := by
    unfold Peephole.dropFinalEmpty
    rw [List.getLast?_concat]
    simp
  rw [hdrop, List.map_map, List.map_map]
  rfl

/-- The lines of an `optimize` result are the peephole-scan output with one
more trailing-carriage-return strip applied (the empty-output case giving the
empty list). -/
theorem rustLines_optimize (x : String) :
    Peephole.rustLines (Peephole.optimize x) =
      (Peephole.peepScan (Peephole.rustLines x)).map strip1CR := by
  unfold Peephole.optimize
  cases hout : Peephole.peepScan (Peephole.rustLines x) with
  | nil => simp [Peephole.rustLines, Peephole.splitNl, Peephole.dropFinalEmpty]
  | cons o os =>
    have hne : o :: os ≠ [] := by simp
    rw [if_neg (by simp)]
    refine rustLines_unlines (o :: os) hne ?_
    intro l hl
    rcases peepScan_mem (Peephole.rustLines x) l (hout ▸ hl) with h | h | h
    · exact rustLines_no_nl x l h
    · subst h; decide
    · subst h; decide

/-- C8: one peephole pass never increases the number of instruction lines:
every branch of the scan either copies one line or drops two (the recognised
`push constant 0`/`not` pair is re-emitted unchanged). -/
theorem c8_peephole_never_adds_lines (x : String) :
    (Peephole.rustLines (Peephole.optimize x)).length ≤ (Peephole.rustLines x).length := by
  rw [rustLines_optimize, List.length_map]
  exact peepScan_length_le _

theorem charSize_cons (a : String) (ls : List String) :
    charSize (a :: ls) = a.length + 1 + charSize ls := by
  simp [charSize]

theorem joinNl_length (ls : List String) :
    ls ≠ [] → (Peephole.joinNl ls ++ "\n").length = charSize ls := by
  induction ls with
  | nil => intro h; exact absurd rfl h
  | cons l rest ih =>
    intro _
    cases rest with
    | nil =>
      have h1 : Peephole.joinNl [l] = l := rfl
      rw [h1, String.length_append, charSize_cons]
      simp [charSize]
      rfl
    | cons r rs =>
      have h1 : Peephole.joinNl (l :: r :: rs) = l ++ "\n" ++ Peephole.joinNl (r :: rs) := rfl
      rw [h1, charSize_cons]
      have h2 := ih (by simp)
      rw [String.length_append] at h2
      rw [String.length_append, String.length_append, String.length_append]
      have h3 : ("\n" : String).length = 1 := rfl
      omega

theorem optimize_length (x : String) :
    (Peephole.optimize x).length = charSize (Peephole.peepScan (Peephole.rustLines x)) := by
  unfold Peephole.optimize
  cases hout : Peephole.peepScan (Peephole.rustLines x) with
  | nil => simp [charSize]
  | cons o os =>
    rw [if_neg (by simp)]
    rw [← hout]
    exact hout ▸ joinNl_length (o :: os) (by simp)

theorem peepScan_charSize (ls : List String) :
    charSize (Peephole.peepScan ls) ≤ charSize ls ∧
      (Peephole.peepScan ls = ls ∨ charSize (Peephole.peepScan ls) < charSize ls) := by
  induction ls using Peephole.peepScan.induct with
  | case1 => exact ⟨le_refl _, Or.inl rfl⟩
  | case2 a => exact ⟨le_refl _, Or.inl rfl⟩
  | case3 a b rest h1 ih =>
    rw [Peephole.peepScan, if_pos h1]
    rw [charSize_cons, charSize_cons]
    exact ⟨by omega, Or.inr (by omega)⟩
  | case4 a b rest h1 h2 ih =>
    rw [Peephole.peepScan, if_neg h1, if_pos h2]
    rw [charSize_cons, charSize_cons]
    exact ⟨by omega, Or.inr (by omega)⟩
  | case5 a b rest h1 h2 h3 ih =>
    rw [Peephole.peepScan, if_neg h1, if_neg h2, if_pos h3]
    rw [charSize_cons, charSize_cons]
    exact ⟨by omega, Or.inr (by omega)⟩
  | case6 a b rest h1 h2 h3 h4 ih =>
    rw [Peephole.peepScan, if_neg h1, if_neg h2, if_neg h3, if_pos h4]
    rw [charSize_cons, charSize_cons]
    exact ⟨by omega, Or.inr (by omega)⟩
  | case7 a b rest h1 h2 h3 h4 h5 ih =>
    rw [Peephole.peepScan, if_neg h1, if_neg h2, if_neg h3, if_neg h4, if_pos h5]
    have ha : a = "push constant 0" := by
      have := h5
      simp only [Bool.and_eq_true, decide_eq_true_eq] at this
      exact this.1
    have hb : b = "not" := by
      have := h5
      simp only [Bool.and_eq_true, decide_eq_true_eq] at this
      exact this.2
    subst ha
    subst hb
    rw [charSize_cons, charSize_cons, charSize_cons, charSize_cons]
    refine ⟨by omega, ?_⟩
    rcases ih.2 with h | h
    · exact Or.inl (by rw [h])
    · exact Or.inr (by omega)
  | case8 a b rest h1 h2 h3 h4 h5 ih =>
    rw [Peephole.peepScan, if_neg h1, if_neg h2, if_neg h3, if_neg h4, if_neg h5]
    rw [charSize_cons, charSize_cons, charSize_cons]
    have hle := ih.1
    rw [charSize_cons] at hle
    refine ⟨by omega, ?_⟩
    rcases ih.2 with h | h
    · exact Or.inl (by rw [h])
    · rw [charSize_cons] at h
      exact Or.inr (by omega)

theorem strip1CR_cases (l : String) :
    strip1CR l = l ∨ (strip1CR l).length < l.length := by
  unfold strip1CR Peephole.stripTrailingCR
  split
  · next heq =>
    right
    have hne : l.data ≠ [] := by
      intro h
      rw [h] at heq
      simp at heq
    have h1 : (String.mk l.data.dropLast).length = l.data.dropLast.length := rfl
    rw [h1, List.length_dropLast]
    have h2 : l.length = l.data.length := rfl
    rw [h2]
    have hpos : 1 ≤ l.data.length := List.length_pos.mpr hne
    omega
  · left
    rfl

theorem strip1CR_length_le (l : String) : (strip1CR l).length ≤ l.length := by
  rcases strip1CR_cases l with h | h
  · rw [h]
  · exact le_of_lt h

theorem mapStrip_charSize (ls : List String) :
    charSize (ls.map strip1CR) ≤ charSize ls ∧
      (ls.map strip1CR = ls ∨ charSize (ls.map strip1CR) < charSize ls) := by
  induction ls with
  | nil => exact ⟨le_refl _, Or.inl rfl⟩
  | cons l rest ih =>
    rw [List.map_cons, charSize_cons, charSize_cons]
    have hl := strip1CR_length_le l
    refine ⟨by omega, ?_⟩
    rcases strip1CR_cases l with h | h
    · rcases ih.2 with h2 | h2
      · exact Or.inl (by rw [h, h2])
      · exact Or.inr (by omega)
    · have := ih.1
      exact Or.inr (by omega)

/-- One further peephole application on an already-optimized string either
leaves it unchanged or makes it strictly shorter. -/
theorem optimize_progress (x : String) :
    Peephole.optimize (Peephole.optimize x) = Peephole.optimize x ∨
      (Peephole.optimize (Peephole.optimize x)).length < (Peephole.optimize x).length := by
  have hlen2 : (Peephole.optimize (Peephole.optimize x)).length =
      charSize (Peephole.peepScan
        ((Peephole.peepScan (Peephole.rustLines x)).map strip1CR)) := by
    rw [optimize_length, rustLines_optimize]
  have hlen1 : (Peephole.optimize x).length =
      charSize (Peephole.peepScan (Peephole.rustLines x)) := optimize_length x
  by_cases hmap : (Peephole.peepScan (Peephole.rustLines x)).map strip1CR =
      Peephole.peepScan (Peephole.rustLines x)
  · rcases (peepScan_charSize (Peephole.peepScan (Peephole.rustLines x))).2 with hfix | hlt
    · left
      have : Peephole.optimize (Peephole.optimize x) =
          (let optimized := Peephole.peepScan (Peephole.rustLines (Peephole.optimize x));
            if optimized.isEmpty then "" else Peephole.joinNl optimized ++ "\n") := by
        rw [Peephole.optimize]
      rw [this, rustLines_optimize, hmap, hfix]
      rw [Peephole.optimize]
    · right
      rw [hlen2, hlen1, hmap]
      exact hlt
  · right
    rw [hlen2, hlen1]
    have h1 := (peepScan_charSize
      ((Peephole.peepScan (Peephole.rustLines x)).map strip1CR)).1
    rcases (mapStrip_charSize (Peephole.peepScan (Peephole.rustLines x))).2 with h2 | h2
    · exact absurd h2 hmap
    · omega

/-- Fixed-point search bounded by the length of the once-optimized string. -/
theorem optimizeFixAux (n : Nat) :
    ∀ x : String, (Peephole.optimize x).length ≤ n →
      ∃ k, k ≤ n + 1 ∧
        Peephole.optimize^[k + 1] x = Peephole.optimize^[k] x := by
  induction n with
  | zero =>
    intro x hx
    rcases optimize_progress x with h | h
    · exact ⟨1, le_refl _, by
        simpa [Function.iterate_succ_apply, Function.iterate_succ_apply'] using h⟩
    · omega
  | succ m ih =>
    intro x hx
    rcases optimize_progress x with h | h
    · exact ⟨1, by omega, by
        simpa [Function.iterate_succ_apply, Function.iterate_succ_apply'] using h⟩
    · have hx' : (Peephole.optimize (Peephole.optimize x)).length ≤ m := by omega
      rcases ih (Peephole.optimize x) hx' with ⟨k, hk, hfix⟩
      refine ⟨k + 1, by omega, ?_⟩
      rw [Function.iterate_succ_apply, Function.iterate_succ_apply]
      exact hfix

/-- C1 counterexample: on the six-line input
`neg / not / push local 3 / pop local 3 / not / neg` the second application
still returns `neg / neg` while the third returns the empty program, so the
third application does not reach the fixed point claimed. -/
theorem c1_counterexample_three_not_enough :
    Peephole.optimize (Peephole.optimize peepCascadeInput) = "neg\nneg\n" ∧
    Peephole.optimize (Peephole.optimize (Peephole.optimize peepCascadeInput)) = "" ∧
    Peephole.optimize (Peephole.optimize (Peephole.optimize peepCascadeInput)) ≠
      Peephole.optimize (Peephole.optimize peepCascadeInput) := by
  refine ⟨by decide, by decide, by decide⟩

/-- C1 amended: repeatedly applying the peephole pass does reach a fixed
point, but not necessarily by the third application; a fixed point is
reached after at most `|optimize(x)| + 1` further applications (each
non-trivial pass strictly shortens the text). -/
theorem c1_amended_fixed_point_reached (x : String) :
    ∃ k, k ≤ (Peephole.optimize x).length + 1 ∧
      Peephole.optimize^[k + 1] x = Peephole.optimize^[k] x := by
  exact optimizeFixAux (Peephole.optimize x).length x (le_refl _)

/-- C2 counterexample: under the default options (folding enabled) the class
`class T { function boolean f() { return true; } }` contains the keyword
constant `true`, yet the generated code is `push constant 1` / `neg` — the
fully-foldable expression is folded to `-1` first, so no `not` line (and no
`push constant 0` for this occurrence) is ever emitted; the peephole pass
leaves that text unchanged. -/
theorem c2_counterexample_folded_true :
    CodeGenerator.compile_with_options trueReturnClass Bool.true =
      .ok (.ok "function T.f 0\npush constant 1\nneg\nreturn\n") ∧
    "not" ∉ Peephole.rustLines "function T.f 0\npush constant 1\nneg\nreturn\n" ∧
    Peephole.optimize "function T.f 0\npush constant 1\nneg\nreturn\n" =
      "function T.f 0\npush constant 1\nneg\nreturn\n" := by
  refine ⟨?_, by decide, by decide⟩
  have hfold : ConstantFolder.fold_expression
      (.mk (.keywordConstant .true spX) .nil spX) = .ok (some (-1)) := by decide
  simp only [CodeGenerator.compile_with_options, trueReturnClass,
    CodeGenerator.compile_class, CodeGenerator.compileClassVarDecs,
    CodeGenerator.compileSubroutines, CodeGenerator.compile_subroutine,
    CodeGenerator.defineParams, CodeGenerator.defineVarDecs,
    CodeGenerator.compileStatements, CodeGenerator.compile_statement,
    CodeGenerator.compile_return, CodeGenerator.compile_expression, hfold,
    CodeGenerator.with_options, SymbolTable.new, SymbolTable.start_class,
    SymbolTable.start_subroutine, SymbolTable.var_count,
    CodeGenerator.write_push, CodeGenerator.write_arithmetic,
    CodeGenerator.write_return, CodeGenerator.vmOut, Except.bind]
  norm_num
  decide

/-- Reduction of an `Except` bind on an `ok` value (the shape produced by
the code generator's do-notation). -/
theorem except_ok_bind {α β ε : Type} (a : α) (f : α → Except ε β) :
    (Except.ok a : Except ε α) >>= f = f a := rfl

/-- Reduction of an `Except` bind on an `error` value. -/
theorem except_error_bind {α β ε : Type} (e : ε) (f : α → Except ε β) :
    (Except.error e : Except ε α) >>= f = Except.error e := rfl

/-- C2 amended: `compile_keyword_constant` itself always emits
`push constant 0` / `not` for `true`, `push constant 0` for `false`/`null`
and `push pointer 0` for `this`, and every keyword constant compiled through
`compile_term` (the path taken when the enclosing expression is not fully
foldable, and always when folding is disabled) emits exactly those lines —
but with folding enabled a fully-foldable expression containing `true`
compiles to `push constant 1` / `neg` instead. -/
theorem c2_amended_keyword_constant_emission :
    ∀ (s : CGState) (kw : KeywordConstant),
      CodeGenerator.compile_keyword_constant s kw =
        { s with out := s.out ++ kwLines kw } ∧
      (∀ sp, CodeGenerator.compile_term (.keywordConstant kw sp) s =
        .ok { s with out := s.out ++ kwLines kw }) ∧
      (s.optimize = Bool.false → ∀ sp1 sp2,
        CodeGenerator.compile_expression (.mk (.keywordConstant kw sp1) .nil sp2) s =
          .ok { s with out := s.out ++ kwLines kw }) := by
  intro s kw
  have hkc : CodeGenerator.compile_keyword_constant s kw =
      { s with out := s.out ++ kwLines kw } := by
    cases kw <;> simp [CodeGenerator.compile_keyword_constant, kwLines,
      CodeGenerator.write_push, CodeGenerator.write_arithmetic] <;> rfl
  refine ⟨hkc, fun sp => ?_, fun hopt sp1 sp2 => ?_⟩
  · simp [CodeGenerator.compile_term, hkc]
  · rw [CodeGenerator.compile_expression]
    rw [if_neg (by simp [hopt])]
    rw [CodeGenerator.compileExpressionRest]
    · simp [CodeGenerator.compile_term, hkc, CodeGenerator.compileOpsLoop, except_ok_bind]
    · intro n nsp right_term restOps h1 h2
      exact OpList.noConfusion h2

/-- C2 amended witness at a concrete state with folding disabled. -/
theorem c2_amended_keyword_constant_emission_witness :
    CodeGenerator.compile_keyword_constant (CodeGenerator.with_options Bool.false)
        KeywordConstant.true =
      { CodeGenerator.with_options Bool.false with
        out := (CodeGenerator.with_options Bool.false).out ++ kwLines .true } ∧
    CodeGenerator.compile_expression
        (.mk (.keywordConstant .true spX) .nil spX)
        (CodeGenerator.with_options Bool.false) =
      .ok { CodeGenerator.with_options Bool.false with
        out := (CodeGenerator.with_options Bool.false).out ++ kwLines .true } := by
  have h := c2_amended_keyword_constant_emission (CodeGenerator.with_options Bool.false)
    KeywordConstant.true
  exact ⟨h.1, h.2.2 rfl spX spX⟩

/-- Appending one `(op, term)` pair to the flat operator sequence folds the
prefix first and applies the new operator last: the folder is strictly
left-to-right. -/
theorem foldOpsLoop_push (op : BinaryOp) (tl : Term) :
    ∀ (ops : OpList) (r : Int),
      ConstantFolder.foldOpsLoop r (ops.push op tl) =
        (match ConstantFolder.foldOpsLoop r ops with
         | .error e => .error e
         | .ok none => .ok none
         | .ok (some a) =>
           match ConstantFolder.fold_term tl with
           | .error e => .error e
           | .ok none => .ok none
           | .ok (some b) => ConstantFolder.apply_op a op b)
  | .nil, r => by
    show ConstantFolder.foldOpsLoop r (.cons op tl .nil) = _
    cases hft : ConstantFolder.fold_term tl with
    | error e =>
      cases e
      simp [ConstantFolder.foldOpsLoop, hft, except_ok_bind, except_error_bind]
    | ok o =>
      cases o with
      | none => simp [ConstantFolder.foldOpsLoop, hft, except_ok_bind]
      | some b =>
        cases hap : ConstantFolder.apply_op r op b with
        | error e =>
          cases e
          simp [ConstantFolder.foldOpsLoop, hft, hap, except_ok_bind, except_error_bind]
        | ok o2 =>
          cases o2 with
          | none => simp [ConstantFolder.foldOpsLoop, hft, hap, except_ok_bind]
          | some v => simp [ConstantFolder.foldOpsLoop, hft, hap, except_ok_bind]
  | .cons op0 t0 rest, r => by
    have ih := foldOpsLoop_push op tl rest
    show ConstantFolder.foldOpsLoop r (.cons op0 t0 (rest.push op tl)) = _
    cases hft : ConstantFolder.fold_term t0 with
    | error e =>
      cases e
      simp [ConstantFolder.foldOpsLoop, hft, except_ok_bind, except_error_bind]
    | ok o =>
      cases o with
      | none => simp [ConstantFolder.foldOpsLoop, hft, except_ok_bind]
      | some right =>
        cases hap : ConstantFolder.apply_op r op0 right with
        | error e =>
          cases e
          simp [ConstantFolder.foldOpsLoop, hft, hap, except_ok_bind, except_error_bind]
        | ok o2 =>
          cases o2 with
          | none => simp [ConstantFolder.foldOpsLoop, hft, hap, except_ok_bind]
          | some v =>
            simp only [ConstantFolder.foldOpsLoop, hft, hap, except_ok_bind]
            exact ih v

/-- C3: full constant folding — the folder evaluates the flat operator
sequence strictly left-to-right (appending an operator folds the prefix
first), never folds a division whose folded divisor is zero, and when the
whole expression folds with optimizations on, the generated code is a single
`push constant v` for `v` in `[0, 32767]`, and `push constant |v|` followed
by `neg` for `v` in `[-32768, -1]`. -/
theorem c3_fold_left_to_right_and_emission :
    ∀ (e : Expression) (s : CGState) (v : Int),
      s.optimize = Bool.true →
      ConstantFolder.fold_expression e = .ok (some v) →
      ((0 ≤ v ∧ v ≤ 32767 →
          CodeGenerator.compile_expression e s =
            .ok { s with out := s.out ++ ["push constant " ++ Nat.repr v.toNat] }) ∧
       (-32768 ≤ v ∧ v < 0 →
          CodeGenerator.compile_expression e s =
            .ok { s with out := s.out ++
              ["push constant " ++ Nat.repr (-v).toNat, "neg"] }) ∧
       (∀ left : Int, ConstantFolder.apply_op left BinaryOp.div 0 = .ok none) ∧
       (∀ (t : Term) (ops : OpList) (op : BinaryOp) (tl : Term) (sp : Span),
          ConstantFolder.fold_expression (.mk t (ops.push op tl) sp) =
            (match ConstantFolder.fold_expression (.mk t ops sp) with
             | .error e => .error e
             | .ok none => .ok none
             | .ok (some a) =>
               match ConstantFolder.fold_term tl with
               | .error e => .error e
               | .ok none => .ok none
               | .ok (some b) => ConstantFolder.apply_op a op b))) := by
  intro e s v hopt hfold
  refine ⟨fun hrange => ?_, fun hrange => ?_, fun left => ?_, fun t ops op tl sp => ?_⟩
  · cases e with
    | mk term ops sp =>
      rw [CodeGenerator.compile_expression, if_pos (by simp [hopt]), hfold]
      have hmod : v.toNat % 65536 = v.toNat := Nat.mod_eq_of_lt (by omega)
      simp [CodeGenerator.write_push, hmod, hrange.1, hrange.2]
  · cases e with
    | mk term ops sp =>
      rw [CodeGenerator.compile_expression, if_pos (by simp [hopt]), hfold]
      have h1 : ¬(0 ≤ v ∧ v ≤ 32767) := by omega
      have hmod : (-v).toNat % 65536 = (-v).toNat := Nat.mod_eq_of_lt (by omega)
      simp [CodeGenerator.write_push, CodeGenerator.write_arithmetic, hmod, h1,
        hrange.1, hrange.2]
  · simp [ConstantFolder.apply_op]
  · rw [ConstantFolder.fold_expression, ConstantFolder.fold_expression]
    cases hft : ConstantFolder.fold_term t with
    | error e => cases e; simp [hft, except_ok_bind, except_error_bind]
    | ok o =>
      cases o with
      | none => simp [hft, except_ok_bind]
      | some r => simp only [hft, except_ok_bind]; exact foldOpsLoop_push op tl ops r

/-- C3 witness: `1 + 2` folds to `3` and emits one `push constant 3`;
`0 - 5` folds to `-5` and emits `push constant 5` then `neg`. -/
theorem c3_fold_left_to_right_and_emission_witness :
    ConstantFolder.fold_expression
        (.mk (.integerConstant 1 spX) (.cons .add (.integerConstant 2 spX) .nil) spX) =
      .ok (some 3) ∧
    CodeGenerator.compile_expression
        (.mk (.integerConstant 1 spX) (.cons .add (.integerConstant 2 spX) .nil) spX)
        (CodeGenerator.with_options Bool.true) =
      .ok { CodeGenerator.with_options Bool.true with
        out := (CodeGenerator.with_options Bool.true).out ++
          ["push constant " ++ Nat.repr (Int.toNat 3)] } ∧
    CodeGenerator.compile_expression
        (.mk (.integerConstant 0 spX) (.cons .sub (.integerConstant 5 spX) .nil) spX)
        (CodeGenerator.with_options Bool.true) =
      .ok { CodeGenerator.with_options Bool.true with
        out := (CodeGenerator.with_options Bool.true).out ++
          ["push constant " ++ Nat.repr (Int.toNat (-(-5))), "neg"] } := by
  refine ⟨by decide, ?_, ?_⟩
  · exact (c3_fold_left_to_right_and_emission
      (.mk (.integerConstant 1 spX) (.cons .add (.integerConstant 2 spX) .nil) spX)
      (CodeGenerator.with_options Bool.true) 3 rfl (by decide)).1 (by decide)
  · exact (c3_fold_left_to_right_and_emission
      (.mk (.integerConstant 0 spX) (.cons .sub (.integerConstant 5 spX) .nil) spX)
      (CodeGenerator.with_options Bool.true) (-5) rfl (by decide)).2.1 (by decide)

theorem land_self_nat (q : Nat) : Nat.land q q = q := by
  show q &&& q = q
  apply Nat.eq_of_testBit_eq
  intro i
  simp [Nat.testBit_land]

theorem bit_false_eq (a : Nat) : Nat.bit false a = 2 * a := by simp [Nat.bit]

theorem bit_true_eq (a : Nat) : Nat.bit true a = 2 * a + 1 := by simp [Nat.bit]

theorem land_bit_nat (a : Bool) (ma : Nat) (b : Bool) (nb : Nat) :
    Nat.land (Nat.bit a ma) (Nat.bit b nb) = Nat.bit (a && b) (Nat.land ma nb) :=
  Nat.land_bit a ma b nb

/-- On a nonzero word with `n & (n - 1) = 0` the bit-scanning loop returns the
exact base-two logarithm, provided the fuel bounds the word. -/
theorem tzLoop_land (f : Nat) :
    ∀ m, 0 < m → m < 2 ^ f → m.land (m - 1) = 0 →
      2 ^ StrengthReduction.tzLoop f m = m := by
  induction f with
  | zero => intro m h1 h2 _; omega
  | succ f ih =>
    intro m h1 h2 hland
    rcases Nat.even_or_odd m with he | ho
    · obtain ⟨q, hq⟩ := he
      have hq2 : m = 2 * q := by omega
      have hqpos : 0 < q := by omega
      have hm1 : m - 1 = 2 * (q - 1) + 1 := by omega
      have hland2 : q.land (q - 1) = 0 := by
        have hrw : Nat.land (2 * q) (2 * (q - 1) + 1) = 2 * Nat.land q (q - 1) := by
          rw [← bit_false_eq q, ← bit_true_eq (q - 1),
            land_bit_nat, Bool.false_and, bit_false_eq]
        rw [hm1, hq2] at hland
        omega
      have hqlt : q < 2 ^ f := by
        have hp : 2 ^ (f + 1) = 2 * 2 ^ f := by ring
        omega
      have hmod : m % 2 = 0 := by omega
      have hdiv : m / 2 = q := by omega
      rw [show StrengthReduction.tzLoop (f + 1) m =
            StrengthReduction.tzLoop f (m / 2) + 1 from by
        simp [StrengthReduction.tzLoop, hmod]]
      rw [hdiv, pow_succ]
      have hih := ih q hqpos hqlt hland2
      omega
    · have hmod : m % 2 = 1 := Nat.odd_iff.mp ho
      have hm1 : m = 1 := by
        by_contra hne
        obtain ⟨q, hq⟩ := ho
        have hqpos : 0 < q := by omega
        have hrw : Nat.land (2 * q + 1) (2 * q) = 2 * q := by
          conv_lhs => rw [← bit_true_eq q, ← bit_false_eq q]
          rw [land_bit_nat, Bool.true_and, land_self_nat, bit_false_eq]
        rw [show m = 2 * q + 1 from hq, show 2 * q + 1 - 1 = 2 * q from by omega] at hland
        omega
      subst hm1
      simp [StrengthReduction.tzLoop]

/-- optimize_multiply accepts exactly the powers of two up to 16384 and
returns the base-two logarithm of the (u16-truncated) literal. -/
theorem optimize_multiply_pow (n k : Nat)
    (h : StrengthReduction.optimize_multiply n = some k) :
    2 ^ k = n % 65536 ∧ n % 65536 ≤ 16384 := by
  unfold StrengthReduction.optimize_multiply at h
  split at h
  · rename_i hcond
    unfold StrengthReduction.shift_count at h
    split at h
    · rename_i hp
      injection h with hk
      subst hk
      rcases Bool.and_eq_true _ _ |>.mp hcond with ⟨h1, _⟩
      have hle : n % 65536 ≤ 16384 := by simpa using h1
      simp only [StrengthReduction.is_power_of_two, gt_iff_lt, Bool.and_eq_true,
        decide_eq_true_eq] at hp
      refine ⟨?_, hle⟩
      exact tzLoop_land 16 (n % 65536) hp.1
        (by have := Nat.mod_lt n (show 0 < 65536 from by omega); omega) hp.2
    · exact absurd h (by simp)
  · exact absurd h (by simp)

/-- emit_shift_left appends exactly the doubling blocks to the output. -/
theorem emit_shift_left_eq (k : Nat) :
    ∀ s : CGState, CodeGenerator.emit_shift_left k s =
      { s with out := s.out ++ doubleBlocks k } := by
  induction k with
  | zero => intro s; simp [CodeGenerator.emit_shift_left, doubleBlocks]
  | succ k ih =>
    intro s
    rw [show CodeGenerator.emit_shift_left (k + 1) s =
          CodeGenerator.emit_shift_left k
            (CodeGenerator.write_arithmetic
              (CodeGenerator.write_push
                (CodeGenerator.write_push (CodeGenerator.write_pop s "temp" 0) "temp" 0)
                "temp" 0) "add") from rfl]
    rw [ih]
    simp [CodeGenerator.write_pop, CodeGenerator.write_push,
      CodeGenerator.write_arithmetic, doubleBlocks]
    exact ⟨rfl, rfl⟩

/-- No doubling block ever contains a Math.multiply call. -/
theorem multiply_not_in_doubleBlocks (k : Nat) :
    "call Math.multiply 2" ∉ doubleBlocks k := by
  induction k with
  | zero => simp [doubleBlocks]
  | succ k ih => simp [doubleBlocks, ih]

/-- C4: multiplication by a power-of-two literal `n` in `[1, 16384]` is
strength-reduced: the emitted code for that multiply is exactly `log2(n)`
doubling blocks `pop temp 0`/`push temp 0`/`push temp 0`/`add` and contains
no `call Math.multiply`, on both the right-literal and left-literal
patterns; a literal rejected by optimize_multiply (non-power-of-two or out
of range) emits `push constant n` followed by `call Math.multiply 2`. -/
theorem c4_power_of_two_strength_reduction :
    ∀ (n : Nat) (sp : Span) (rest : OpList) (s : CGState),
      s.optimize = Bool.true →
      ((∀ k, StrengthReduction.optimize_multiply n = some k →
          CodeGenerator.compileOpsLoop (.cons .mul (.integerConstant n sp) rest) s =
            CodeGenerator.compileOpsLoop rest { s with out := s.out ++ doubleBlocks k } ∧
          2 ^ k = n % 65536 ∧ n % 65536 ≤ 16384 ∧
          "call Math.multiply 2" ∉ doubleBlocks k) ∧
       (StrengthReduction.optimize_multiply n = none →
          CodeGenerator.compileOpsLoop (.cons .mul (.integerConstant n sp) rest) s =
            CodeGenerator.compileOpsLoop rest
              { s with out := s.out ++
                  ["push constant " ++ Nat.repr (n % 65536), "call Math.multiply 2"] }) ∧
       (∀ (k : Nat) (right_term : Term) (restOps : OpList),
          StrengthReduction.optimize_multiply n = some k →
          CodeGenerator.compileExpressionRest (.integerConstant n sp)
              (.cons .mul right_term restOps) s =
            (match CodeGenerator.compile_term right_term s with
             | .error e => .error e
             | .ok s2 => CodeGenerator.compileOpsPlain restOps
                 { s2 with out := s2.out ++ doubleBlocks k }))) := by
  intro n sp rest s hopt
  refine ⟨fun k hk => ?_, fun hk => ?_, fun k right_term restOps hk => ?_⟩
  · refine ⟨?_, (optimize_multiply_pow n k hk).1, (optimize_multiply_pow n k hk).2,
      multiply_not_in_doubleBlocks k⟩
    rw [CodeGenerator.compileOpsLoop]
    simp [hopt, hk, emit_shift_left_eq]
  · rw [CodeGenerator.compileOpsLoop]
    simp [hopt, hk, CodeGenerator.compile_term, except_ok_bind,
      CodeGenerator.write_push, CodeGenerator.compile_binary_op,
      CodeGenerator.write_call,
      show "call Math.multiply " ++ Nat.repr (2 % 65536) = "call Math.multiply 2" from rfl]
  · rw [CodeGenerator.compileExpressionRest]
    simp only [hopt, hk, if_true]
    cases hct : CodeGenerator.compile_term right_term s with
    | error e => simp [hct, except_error_bind]
    | ok s2 => simp [hct, except_ok_bind, emit_shift_left_eq]

/-- C4 witness: `x * 4` for a local `x` under default (optimizing) options:
two doubling blocks, no Math.multiply, on both multiply patterns. -/
theorem c4_power_of_two_strength_reduction_witness :
    (CodeGenerator.compileOpsLoop (.cons .mul (.integerConstant 4 spX) .nil)
        cgStateLocalX =
      CodeGenerator.compileOpsLoop .nil
        { cgStateLocalX with out := cgStateLocalX.out ++ doubleBlocks 2 } ∧
     2 ^ 2 = 4 % 65536 ∧ 4 % 65536 ≤ 16384 ∧
     "call Math.multiply 2" ∉ doubleBlocks 2) ∧
    CodeGenerator.compileExpressionRest (.integerConstant 4 spX)
        (.cons .mul (.varName "x" spX) .nil) cgStateLocalX =
      (match CodeGenerator.compile_term (.varName "x" spX) cgStateLocalX with
       | .error e => .error e
       | .ok s2 => CodeGenerator.compileOpsPlain .nil
           { s2 with out := s2.out ++ doubleBlocks 2 }) := by
  refine ⟨(c4_power_of_two_strength_reduction 4 spX .nil cgStateLocalX rfl).1 2
      (by decide),
    (c4_power_of_two_strength_reduction 4 spX .nil cgStateLocalX rfl).2.2 2
      (.varName "x" spX) .nil (by decide)⟩

theorem advance_depth (p : ParserState) : ((Parser.advance p).2).depth = p.depth := by
  unfold Parser.advance
  split <;> rfl

theorem expect_symbol_depth (p : ParserState) (c : Char) :
    ((Parser.expect_symbol p c).2).depth = p.depth := by
  unfold Parser.expect_symbol
  split
  · rcases h : Parser.advance p with ⟨t, p1⟩
    have hd := advance_depth p
    rw [h] at hd
    simp only [h]
    exact hd
  · rfl

theorem expect_identifier_depth (p : ParserState) :
    ((Parser.expect_identifier p).2).depth = p.depth := by
  unfold Parser.expect_identifier
  split
  · rcases h : Parser.advance p with ⟨t, p1⟩
    have hd := advance_depth p
    rw [h] at hd
    simp only [h]
    exact hd
  · rfl

theorem synchronize_depth : ∀ (f : Nat) (p : ParserState),
    (Parser.synchronize f p).depth = p.depth := by
  intro f
  induction f with
  | zero => intro p; rfl
  | succ f ih =>
    intro p
    unfold Parser.synchronize
    split
    · rfl
    · split <;> first
        | rfl
        | (split
           · rfl
           · split
             · exact advance_depth p
             · rw [ih]; exact advance_depth p)

/-- Depth preservation across the whole expression-parsing mutual block:
every function restores `depth` to its entry value. -/
theorem parser_depth_all : ∀ n : Nat,
    (∀ p, ((Parser.parse_expression n p).2).depth = p.depth) ∧
    (∀ p, ((Parser.parse_expression_inner n p).2).depth = p.depth) ∧
    (∀ p ops, ((Parser.parseOpsLoop n p ops).2).depth = p.depth) ∧
    (∀ p, ((Parser.parse_term n p).2).depth = p.depth) ∧
    (∀ p, ((Parser.parse_term_inner n p).2).depth = p.depth) ∧
    (∀ p, ((Parser.parse_expression_list n p).2).depth = p.depth) ∧
    (∀ p exprs, ((Parser.parseExprListLoop n p exprs).2).depth = p.depth) := by
  intro n
  induction n with
  | zero =>
    exact ⟨fun p => rfl, fun p => rfl, fun p ops => rfl, fun p => rfl,
      fun p => rfl, fun p => rfl, fun p exprs => rfl⟩
  | succ n ih =>
    obtain ⟨ih1, ih2, ih3, ih4, ih5, ih6, ih7⟩ := ih
    refine ⟨?_, ?_, ?_, ?_, ?_, ?_, ?_⟩
    · -- parse_expression
      intro p
      simp only [Parser.parse_expression]
      split
      · simp
      · rcases h : Parser.parse_expression_inner n { p with depth := p.depth + 1 }
          with ⟨r, p1⟩
        have hd : p1.depth = p.depth + 1 := by
          have hh := ih2 { p with depth := p.depth + 1 }
          rw [h] at hh
          exact hh
        simp [h]
        omega
    · -- parse_expression_inner
      intro p
      simp only [Parser.parse_expression_inner]
      rcases h1 : Parser.parse_term n p with ⟨t, p1⟩
      have hd1 : p1.depth = p.depth := by
        have hh := ih4 p
        rw [h1] at hh
        exact hh
      cases t with
      | none => simp [h1, hd1]
      | some term =>
        rcases h2 : Parser.parseOpsLoop n p1 .nil with ⟨ops, p2⟩
        have hd2 : p2.depth = p1.depth := by
          have hh := ih3 p1 .nil
          rw [h2] at hh
          exact hh
        simp [h1, h2]
        omega
    · -- parseOpsLoop
      intro p ops
      simp only [Parser.parseOpsLoop]
      cases hpk : Parser.peek_symbol p with
      | none => rfl
      | some c =>
        cases hop : BinaryOp.from_char c with
        | none => simp [hop]
        | some op =>
          have ha := advance_depth p
          rcases h1 : Parser.parse_term n ((Parser.advance p).2) with ⟨t, p1⟩
          have hd1 : p1.depth = ((Parser.advance p).2).depth := by
            have hh := ih4 ((Parser.advance p).2)
            rw [h1] at hh
            exact hh
          cases t with
          | none =>
            rcases h2 : Parser.parseOpsLoop n p1 ops with ⟨ops2, p2⟩
            have hd2 : p2.depth = p1.depth := by
              have hh := ih3 p1 ops
              rw [h2] at hh
              exact hh
            simp [hop, h1, h2]
            omega
          | some next_term =>
            rcases h2 : Parser.parseOpsLoop n p1 (ops.push op next_term) with ⟨ops2, p2⟩
            have hd2 : p2.depth = p1.depth := by
              have hh := ih3 p1 (ops.push op next_term)
              rw [h2] at hh
              exact hh
            simp [hop, h1, h2]
            omega
    · -- parse_term
      intro p
      simp only [Parser.parse_term]
      split
      · simp
      · rcases h : Parser.parse_term_inner n { p with depth := p.depth + 1 }
          with ⟨r, p1⟩
        have hd : p1.depth = p.depth + 1 := by
          have hh := ih5 { p with depth := p.depth + 1 }
          rw [h] at hh
          exact hh
        simp [h]
        omega
    · -- parse_term_inner
      intro p
      simp only [Parser.parse_term_inner]
      cases hpk : Parser.peek_token p with
      | none => simp [synchronize_depth]
      | some tok =>
        cases tok with
        | integerConstant nval => simp [advance_depth]
        | stringConstant sval => simp [advance_depth]
        | keyword k =>
          cases hkc : KeywordConstant.from_keyword k with
          | some kc => simp [hkc, advance_depth]
          | none => simp [hkc]
        | symbol c =>
          by_cases hparen : c = '('
          · subst hparen
            have ha := advance_depth p
            rcases h1 : Parser.parse_expression n ((Parser.advance p).2) with ⟨e, p1⟩
            have hd1 : p1.depth = ((Parser.advance p).2).depth := by
              have hh := ih1 ((Parser.advance p).2)
              rw [h1] at hh
              exact hh
            cases e with
            | none =>
              simp [h1]
              omega
            | some expr =>
              rcases h2 : Parser.expect_symbol p1 ')' with ⟨m, p2⟩
              have hd2 : p2.depth = p1.depth := by
                have hh := expect_symbol_depth p1 ')'
                rw [h2] at hh
                exact hh
              simp [h1, h2]
              omega
          · by_cases hun : (c = '-' || c = '~') = true
            · cases hop : UnaryOp.from_char c with
              | some op =>
                have ha := advance_depth p
                rcases h1 : Parser.parse_term n ((Parser.advance p).2) with ⟨t, p1⟩
                have hd1 : p1.depth = ((Parser.advance p).2).depth := by
                  have hh := ih4 ((Parser.advance p).2)
                  rw [h1] at hh
                  exact hh
                cases t with
                | none =>
                  simp [hparen, hun, hop, h1]
                  omega
                | some term =>
                  simp [hparen, hun, hop, h1]
                  omega
              | none => simp [hparen, hun, hop, advance_depth]
            · simp [hparen, hun, synchronize_depth]
        | identifier name =>
          have ha := advance_depth p
          cases hps : Parser.peek_symbol ((Parser.advance p).2) with
          | none => simp [hps, advance_depth]
          | some c2 =>
            have ha2 := advance_depth ((Parser.advance p).2)
            by_cases hbr : c2 = '['
            · subst hbr
              rcases h1 : Parser.parse_expression n
                  ((Parser.advance ((Parser.advance p).2)).2) with ⟨e, p1⟩
              have hd1 : p1.depth = ((Parser.advance ((Parser.advance p).2)).2).depth := by
                have hh := ih1 ((Parser.advance ((Parser.advance p).2)).2)
                rw [h1] at hh
                exact hh
              cases e with
              | none =>
                simp [hps, h1]
                omega
              | some index =>
                rcases h2 : Parser.expect_symbol p1 ']' with ⟨m, p2⟩
                have hd2 : p2.depth = p1.depth := by
                  have hh := expect_symbol_depth p1 ']'
                  rw [h2] at hh
                  exact hh
                simp [hps, h1, h2]
                omega
            · by_cases hpar : c2 = '('
              · subst hpar
                rcases h1 : Parser.parse_expression_list n
                    ((Parser.advance ((Parser.advance p).2)).2) with ⟨args, p1⟩
                have hd1 : p1.depth = ((Parser.advance ((Parser.advance p).2)).2).depth := by
                  have hh := ih6 ((Parser.advance ((Parser.advance p).2)).2)
                  rw [h1] at hh
                  exact hh
                rcases h2 : Parser.expect_symbol p1 ')' with ⟨m, p2⟩
                have hd2 : p2.depth = p1.depth := by
                  have hh := expect_symbol_depth p1 ')'
                  rw [h2] at hh
                  exact hh
                simp [hps, hbr, h1, h2]
                omega
              · by_cases hdot : c2 = '.'
                · subst hdot
                  rcases h1 : Parser.expect_identifier
                      ((Parser.advance ((Parser.advance p).2)).2) with ⟨m, p1⟩
                  have hd1 : p1.depth = ((Parser.advance ((Parser.advance p).2)).2).depth := by
                    have hh := expect_identifier_depth
                        ((Parser.advance ((Parser.advance p).2)).2)
                    rw [h1] at hh
                    exact hh
                  cases m with
                  | none =>
                    simp [hps, hbr, hpar, h1]
                    omega
                  | some ms =>
                    rcases h2 : Parser.expect_symbol p1 '(' with ⟨m2, p2⟩
                    have hd2 : p2.depth = p1.depth := by
                      have hh := expect_symbol_depth p1 '('
                      rw [h2] at hh
                      exact hh
                    rcases h3 : Parser.parse_expression_list n p2 with ⟨args, p3⟩
                    have hd3 : p3.depth = p2.depth := by
                      have hh := ih6 p2
                      rw [h3] at hh
                      exact hh
                    rcases h4 : Parser.expect_symbol p3 ')' with ⟨m4, p4⟩
                    have hd4 : p4.depth = p3.depth := by
                      have hh := expect_symbol_depth p3 ')'
                      rw [h4] at hh
                      exact hh
                    simp [hps, hbr, hpar, h1, h2, h3, h4]
                    omega
                · simp [hps, hbr, hpar, hdot, advance_depth]
    · -- parse_expression_list
      intro p
      simp only [Parser.parse_expression_list]
      split
      · rfl
      · rcases h1 : Parser.parse_expression n p with ⟨e, p1⟩
        have hd1 : p1.depth = p.depth := by
          have hh := ih1 p
          rw [h1] at hh
          exact hh
        cases e with
        | none =>
          rcases h2 : Parser.parseExprListLoop n p1 ExprList.nil with ⟨ex2, p2⟩
          have hd2 : p2.depth = p1.depth := by
            have hh := ih7 p1 ExprList.nil
            rw [h2] at hh
            exact hh
          simp [h1, h2]
          omega
        | some expr =>
          rcases h2 : Parser.parseExprListLoop n p1 (ExprList.cons expr .nil)
              with ⟨ex2, p2⟩
          have hd2 : p2.depth = p1.depth := by
            have hh := ih7 p1 (ExprList.cons expr .nil)
            rw [h2] at hh
            exact hh
          simp [h1, h2]
          omega
    · -- parseExprListLoop
      intro p exprs
      simp only [Parser.parseExprListLoop]
      split
      · have ha := advance_depth p
        rcases h1 : Parser.parse_expression n ((Parser.advance p).2) with ⟨e, p1⟩
        have hd1 : p1.depth = ((Parser.advance p).2).depth := by
          have hh := ih1 ((Parser.advance p).2)
          rw [h1] at hh
          exact hh
        cases e with
        | none =>
          rcases h2 : Parser.parseExprListLoop n p1 exprs with ⟨ex2, p2⟩
          have hd2 : p2.depth = p1.depth := by
            have hh := ih7 p1 exprs
            rw [h2] at hh
            exact hh
          simp [h1, h2]
          omega
        | some expr =>
          rcases h2 : Parser.parseExprListLoop n p1 (exprs.push expr) with ⟨ex2, p2⟩
          have hd2 : p2.depth = p1.depth := by
            have hh := ih7 p1 (exprs.push expr)
            rw [h2] at hh
            exact hh
          simp [h1, h2]
          omega
      · rfl

theorem current_span_set_depth (p : ParserState) (d : Nat) :
    Parser.current_span { p with depth := d } = Parser.current_span p := rfl

/-- C9 (amended): the expression/term parsers preserve the shared depth
counter across every call; a call entered at the ceiling returns `none` and
pushes the "expression nesting too deep" syntax error through the bounded
accumulator — which appends it only while fewer than `max_errors` errors are
stored and silently drops it once the accumulator is full. -/
theorem c9_amended_depth_guard :
    ∀ (n : Nat) (p : ParserState),
      ((Parser.parse_expression n p).2.depth = p.depth ∧
       (Parser.parse_term n p).2.depth = p.depth) ∧
      (MAX_DEPTH ≤ p.depth →
        Parser.parse_expression (n + 1) p =
          (none,
           { p with errors := p.errors.push (JackErr.mkSyn (Parser.current_span p) "expression nesting too deep") }) ∧
        Parser.parse_term (n + 1) p =
          (none,
           { p with errors := p.errors.push (JackErr.mkSyn (Parser.current_span p) "expression nesting too deep") })) ∧
      (∀ (a : ErrorAccumulator) (e : JackErr),
        (a.errors.length < a.max_errors → (a.push e).errors = a.errors ++ [e]) ∧
        (a.max_errors ≤ a.errors.length → a.push e = a)) := by
  intro n p
  refine ⟨⟨(parser_depth_all n).1 p, (parser_depth_all n).2.2.2.1 p⟩,
    fun hd => ⟨?_, ?_⟩, fun a e => ⟨fun hlt => ?_, fun hge => ?_⟩⟩
  · simp only [Parser.parse_expression]
    split
    · simp [current_span_set_depth]
    · rename_i hcond
      exfalso
      simp at hcond
      omega
  · simp only [Parser.parse_term]
    split
    · simp [current_span_set_depth]
    · rename_i hcond
      exfalso
      simp at hcond
      omega
  · unfold ErrorAccumulator.push
    rw [if_pos hlt]
  · unfold ErrorAccumulator.push
    rw [if_neg (by omega)]

/-- C9 counterexample to the unqualified claim: at the nesting ceiling with a
full error accumulator, the parse returns `none` but no syntax error is
recorded — the state (including the 20 stored errors) is returned unchanged. -/
theorem c9_counterexample_error_dropped_at_cap :
    MAX_DEPTH ≤ fullAccParserState.depth ∧
    fullAccParserState.errors.errors.length = 20 ∧
    Parser.parse_expression 5 fullAccParserState = (none, fullAccParserState) := by
  decide

/-- C9 amended witness at concrete states: the ceiling behavior at a full
accumulator, one successful push below the cap, and one dropped push at the
cap. -/
theorem c9_amended_depth_guard_witness :
    Parser.parse_expression 5 fullAccParserState =
      (none,
       { fullAccParserState with errors := fullAccParserState.errors.push (JackErr.mkSyn (Parser.current_span fullAccParserState) "expression nesting too deep") }) ∧
    (ErrorAccumulator.new.push (JackErr.mkSyn spX "m")).errors =
      ErrorAccumulator.new.errors ++ [JackErr.mkSyn spX "m"] ∧
    fullAccParserState.errors.push (JackErr.mkSyn spX "m") =
      fullAccParserState.errors := by
  refine ⟨((c9_amended_depth_guard 4 fullAccParserState).2.1 (by decide)).1,
    ((c9_amended_depth_guard 4 fullAccParserState).2.2 ErrorAccumulator.new
      (JackErr.mkSyn spX "m")).1 (by decide),
    ((c9_amended_depth_guard 4 fullAccParserState).2.2 fullAccParserState.errors
      (JackErr.mkSyn spX "m")).2 (by decide)⟩


/-- The tokenizer only reports a non-empty error list. -/
theorem tokenize_error_nonempty (src : String) (errs : List JackErr)
    (h : Tokenizer.tokenize src = .error errs) : errs ≠ [] := by
  simp only [Tokenizer.tokenize] at h
  rcases h1 : Tokenizer.tokenizeLoop ((Tokenizer.newState src).chars.length + 1)
      (Tokenizer.newState src) [] with ⟨tokens, s2⟩
  rw [h1] at h
  split at h
  · rename_i hcond
    injection h with he
    subst he
    intro hnil
    rw [ErrorAccumulator.has_errors, ErrorAccumulator.into_errors] at *
    rw [hnil] at hcond
    simp at hcond
  · exact absurd h (by simp)

/-- The parser only reports a non-empty error list. -/
theorem parse_error_nonempty (toks : List SpannedToken) (errs : List JackErr)
    (h : Parser.parse toks = .error errs) : errs ≠ [] := by
  simp only [Parser.parse] at h
  rcases h1 : Parser.parse_class (Parser.parseFuel toks) (Parser.newState toks)
      with ⟨cls, p2⟩
  rw [h1] at h
  split at h
  · rename_i hcond
    injection h with he
    subst he
    intro hnil
    rw [ErrorAccumulator.has_errors, ErrorAccumulator.into_errors] at *
    rw [hnil] at hcond
    simp at hcond
  · exact absurd h (by simp)

/-- The code generator only reports a non-empty error list. -/
theorem cg_error_nonempty (c : Jack.Class) (opt : Bool) (errs : List CompileErr)
    (h : CodeGenerator.compile_with_options c opt = .ok (.error errs)) : errs ≠ [] := by
  unfold CodeGenerator.compile_with_options at h
  cases hcc : CodeGenerator.compile_class c (CodeGenerator.with_options opt) with
  | error e => rw [hcc] at h; simp [except_error_bind] at h
  | ok s =>
    rw [hcc, except_ok_bind] at h
    split at h
    · simp at h
    · rename_i hcond
      injection h with he
      injection he with he2
      subst he2
      intro hnil
      rw [hnil] at hcond
      simp at hcond

set_option maxHeartbeats 1000000 in
/-- C5: compile_source_with_options is all-or-nothing — any result it
returns either has an empty error list, or has a non-empty error list and an
empty `vm_code`; when tokenization errors the result is built from the
tokenizer errors alone (the parser's outcome is irrelevant), when parsing
errors the result is built from the parser errors alone (the code
generator's outcome is irrelevant), and only a fully successful pipeline
yields the (optionally peephole-optimized) VM text with no errors. -/
theorem c5_all_or_nothing :
    ∀ (source filename : String) (options : CompileOptions) (res : CompileResult),
      compile_source_with_options source filename options = .ok res →
      (res.filename = filename ∧
       (res.errors = [] ∨ (res.errors ≠ [] ∧ res.vm_code = ""))) ∧
      (∀ errs, Tokenizer.tokenize source = .error errs →
        errs ≠ [] ∧ res = ⟨filename, "", errs.map CompileErr.parse⟩) ∧
      (∀ toks errs, Tokenizer.tokenize source = .ok toks →
        Parser.parse toks = .error errs →
        errs ≠ [] ∧ res = ⟨filename, "", errs.map CompileErr.parse⟩) ∧
      (∀ toks cls errs, Tokenizer.tokenize source = .ok toks →
        Parser.parse toks = .ok cls →
        CodeGenerator.compile_with_options cls options.optimize = .ok (.error errs) →
        errs ≠ [] ∧ res = ⟨filename, "", errs⟩) ∧
      (∀ toks cls vm, Tokenizer.tokenize source = .ok toks →
        Parser.parse toks = .ok cls →
        CodeGenerator.compile_with_options cls options.optimize = .ok (.ok vm) →
        res = ⟨filename, (if options.optimize then Peephole.optimize vm else vm), []⟩) := by
  intro source filename options res h
  cases htok : Tokenizer.tokenize source with
  | error errs0 =>
    simp only [compile_source_with_options, htok] at h
    injection h with he
    subst he
    have hne := tokenize_error_nonempty source errs0 htok
    refine ⟨⟨rfl, Or.inr ⟨by simpa using hne, rfl⟩⟩, fun errs htok2 => ?_,
      fun toks errs htok2 _ => ?_, fun toks cls errs htok2 _ _ => ?_,
      fun toks cls vm htok2 _ _ => ?_⟩
    · injection htok2 with he2
      subst he2
      exact ⟨hne, rfl⟩
    · exact absurd htok2 (by simp)
    · exact absurd htok2 (by simp)
    · exact absurd htok2 (by simp)
  | ok toks0 =>
    cases hpar : Parser.parse toks0 with
    | error perrs =>
      simp only [compile_source_with_options, htok, hpar] at h
      injection h with he
      subst he
      have hne := parse_error_nonempty toks0 perrs hpar
      refine ⟨⟨rfl, Or.inr ⟨by simpa using hne, rfl⟩⟩, fun errs htok2 => ?_,
        fun toks errs htok2 hpar2 => ?_, fun toks cls errs htok2 hpar2 _ => ?_,
        fun toks cls vm htok2 hpar2 _ => ?_⟩
      · exact absurd htok2 (by simp)
      · injection htok2 with he2
        subst he2
        rw [hpar] at hpar2
        injection hpar2 with he3
        subst he3
        exact ⟨hne, rfl⟩
      · injection htok2 with he2
        subst he2
        rw [hpar] at hpar2
        exact absurd hpar2 (by simp)
      · injection htok2 with he2
        subst he2
        rw [hpar] at hpar2
        exact absurd hpar2 (by simp)
    | ok cls0 =>
      cases hcg : CodeGenerator.compile_with_options cls0 options.optimize with
      | error u =>
        cases u
        simp only [compile_source_with_options, htok, hpar, hcg] at h
        exact absurd h (by simp)
      | ok inner =>
        cases inner with
        | error cerrs =>
          simp only [compile_source_with_options, htok, hpar, hcg] at h
          injection h with he
          subst he
          have hne := cg_error_nonempty cls0 options.optimize cerrs hcg
          refine ⟨⟨rfl, Or.inr ⟨hne, rfl⟩⟩, fun errs htok2 => ?_,
            fun toks errs htok2 hpar2 => ?_, fun toks cls errs htok2 hpar2 hcg2 => ?_,
            fun toks cls vm htok2 hpar2 hcg2 => ?_⟩
          · exact absurd htok2 (by simp)
          · injection htok2 with he2
            subst he2
            rw [hpar] at hpar2
            exact absurd hpar2 (by simp)
          · injection htok2 with he2
            subst he2
            rw [hpar] at hpar2
            injection hpar2 with he3
            subst he3
            rw [hcg] at hcg2
            simp only [Except.ok.injEq, Except.error.injEq] at hcg2
            subst hcg2
            exact ⟨hne, rfl⟩
          · injection htok2 with he2
            subst he2
            rw [hpar] at hpar2
            injection hpar2 with he3
            subst he3
            rw [hcg] at hcg2
            simp at hcg2
        | ok vm0 =>
          simp only [compile_source_with_options, htok, hpar, hcg] at h
          injection h with he
          subst he
          refine ⟨⟨rfl, Or.inl rfl⟩, fun errs htok2 => ?_,
            fun toks errs htok2 hpar2 => ?_, fun toks cls errs htok2 hpar2 hcg2 => ?_,
            fun toks cls vm htok2 hpar2 hcg2 => ?_⟩
          · exact absurd htok2 (by simp)
          · injection htok2 with he2
            subst he2
            rw [hpar] at hpar2
            exact absurd hpar2 (by simp)
          · injection htok2 with he2
            subst he2
            rw [hpar] at hpar2
            injection hpar2 with he3
            subst he3
            rw [hcg] at hcg2
            simp at hcg2
          · injection htok2 with he2
            subst he2
            rw [hpar] at hpar2
            injection hpar2 with he3
            subst he3
            rw [hcg] at hcg2
            simp only [Except.ok.injEq] at hcg2
            subst hcg2
            rfl


set_option maxHeartbeats 4000000 in
/-- C5 witness: one concrete run per pipeline outcome — a lexical error
(`"#"`), a parse error (`"class 5"`), a code-generation error (undefined
variable), and a fully successful compilation. -/
theorem c5_all_or_nothing_witness :
    ([JackErr.lexicalErr (Span.new 0 1 1 1) "unexpected character '#'"] ≠ [] ∧
     (⟨"F.jack", "", [JackErr.lexicalErr (Span.new 0 1 1 1) "unexpected character '#'"].map CompileErr.parse⟩ : CompileResult) =
       ⟨"F.jack", "", [JackErr.lexicalErr (Span.new 0 1 1 1) "unexpected character '#'"].map CompileErr.parse⟩) ∧
    (badParseErrs ≠ [] ∧
     (⟨"F.jack", "", badParseErrs.map CompileErr.parse⟩ : CompileResult) =
       ⟨"F.jack", "", badParseErrs.map CompileErr.parse⟩) ∧
    ([CompileErr.undefined_variable "x" (Span.new 36 37 1 37)] ≠ [] ∧
     (⟨"T.jack", "", [CompileErr.undefined_variable "x" (Span.new 36 37 1 37)]⟩ : CompileResult) =
       ⟨"T.jack", "", [CompileErr.undefined_variable "x" (Span.new 36 37 1 37)]⟩) ∧
    ((⟨"T.jack", goodVm, []⟩ : CompileResult) =
       ⟨"T.jack", (if (CompileOptions.mk Bool.true).optimize then Peephole.optimize goodVm else goodVm), []⟩) ∧
    ((⟨"T.jack", goodVm, []⟩ : CompileResult).errors = [] ∨
     ((⟨"T.jack", goodVm, []⟩ : CompileResult).errors ≠ [] ∧
      (⟨"T.jack", goodVm, []⟩ : CompileResult).vm_code = "")) := by
  have hfoldG : ConstantFolder.fold_expression
      (.mk (.keywordConstant .true (Span.new 36 40 1 37)) .nil (Span.new 36 40 1 37)) =
        .ok (some (-1)) := by decide
  have hcgG : CodeGenerator.compile_with_options goodCls Bool.true =
      .ok (.ok goodVm) := by
    simp only [CodeGenerator.compile_with_options, goodCls,
      CodeGenerator.compile_class, CodeGenerator.compileClassVarDecs,
      CodeGenerator.compileSubroutines, CodeGenerator.compile_subroutine,
      CodeGenerator.defineParams, CodeGenerator.defineVarDecs,
      CodeGenerator.compileStatements, CodeGenerator.compile_statement,
      CodeGenerator.compile_return, CodeGenerator.compile_expression, hfoldG,
      CodeGenerator.with_options, SymbolTable.new, SymbolTable.start_class,
      SymbolTable.start_subroutine, SymbolTable.var_count,
      CodeGenerator.write_push, CodeGenerator.write_arithmetic,
      CodeGenerator.write_return, CodeGenerator.vmOut, Except.bind, goodVm]
    norm_num
    decide
  have hfoldU : ConstantFolder.fold_expression
      (.mk (.varName "x" (Span.new 36 37 1 37)) .nil (Span.new 36 37 1 37)) =
        .ok none := by decide
  have hcgU : CodeGenerator.compile_with_options undefCls Bool.true =
      .ok (.error [CompileErr.undefined_variable "x" (Span.new 36 37 1 37)]) := by
    simp only [CodeGenerator.compile_with_options, undefCls,
      CodeGenerator.compile_class, CodeGenerator.compileClassVarDecs,
      CodeGenerator.compileSubroutines, CodeGenerator.compile_subroutine,
      CodeGenerator.defineParams, CodeGenerator.defineVarDecs,
      CodeGenerator.compileStatements, CodeGenerator.compile_statement,
      CodeGenerator.compile_return, CodeGenerator.compile_expression, hfoldU,
      CodeGenerator.compileExpressionRest, CodeGenerator.compileOpsLoop,
      CodeGenerator.compile_term, SymbolTable.lookup, SymbolTable.scopeContains,
      CodeGenerator.pushError,
      CodeGenerator.with_options, SymbolTable.new, SymbolTable.start_class,
      SymbolTable.start_subroutine, SymbolTable.var_count,
      CodeGenerator.write_push, CodeGenerator.write_arithmetic,
      CodeGenerator.write_return, CodeGenerator.vmOut, Except.bind]
    norm_num
    decide
  have hmainG : compile_source_with_options goodSrc "T.jack" ⟨Bool.true⟩ =
      .ok ⟨"T.jack", goodVm, []⟩ := by
    simp only [compile_source_with_options,
      show Tokenizer.tokenize goodSrc = .ok goodToks from by decide,
      show Parser.parse goodToks = .ok goodCls from by decide, hcgG]
    decide
  have hmainU : compile_source_with_options undefSrc "T.jack" ⟨Bool.true⟩ =
      .ok ⟨"T.jack", "", [CompileErr.undefined_variable "x" (Span.new 36 37 1 37)]⟩ := by
    simp only [compile_source_with_options,
      show Tokenizer.tokenize undefSrc = .ok undefToks from by decide,
      show Parser.parse undefToks = .ok undefCls from by decide, hcgU]
  refine ⟨(c5_all_or_nothing "#" "F.jack" ⟨Bool.true⟩ _ (by decide)).2.1 _ (by decide),
    (c5_all_or_nothing "class 5" "F.jack" ⟨Bool.true⟩ _ (by decide)).2.2.1
      badParseToks badParseErrs (by decide) (by decide),
    (c5_all_or_nothing undefSrc "T.jack" ⟨Bool.true⟩ _ hmainU).2.2.2.1
      undefToks undefCls _ (by decide) (by decide) hcgU,
    (c5_all_or_nothing goodSrc "T.jack" ⟨Bool.true⟩ _ hmainG).2.2.2.2
      goodToks goodCls goodVm (by decide) (by decide) hcgG,
    ((c5_all_or_nothing goodSrc "T.jack" ⟨Bool.true⟩ _ hmainG).1).2⟩
